import Mathlib

/-!
Verification of the core of the `kademlia-dht` node implementation:
identifiers with XOR distance, the bucket / routing-table structure, the
lookup value-merge rule, and the local key/value cache with expiration.

The definitions below are a shallow embedding of the JavaScript sources
(`lib/id.js`, `lib/contact.js`, `lib/bucket.js`, `lib/routing-table.js`,
the DHT node module and the lookup module).  JavaScript buffers become
lists of byte values (`Nat` below 256), JavaScript objects used as maps
become association lists, in-place mutation becomes explicit state
passing, and times (`Date` values and millisecond counts) become
rationals.  The file closes with the theorems about the embedded code.
-/

namespace Kad

/-- An identifier is the byte buffer backing `Id` in `lib/id.js`:
a list of byte values, 20 bytes (160 bits) for well-formed ids. -/
abbrev Id := List Nat

/-- `Id.SIZE` from `lib/id.js` (20 bytes, the width of a SHA-1). -/
def ID_SIZE : Nat := 20

/-- `Id.BIT_SIZE` from `lib/id.js` (160 bits). -/
def BIT_SIZE : Nat := 160

/-- Well-formedness of an id buffer: 20 bytes, each below 256. -/
def IdOk (a : Id) : Prop := a.length = ID_SIZE ∧ ∀ b ∈ a, b < 256

instance (a : Id) : Decidable (IdOk a) := by
  unfold IdOk; infer_instance

/-- `Id.prototype.equal` from `lib/id.js`: byte-wise comparison of the
two buffers. -/
def idEqual : Id → Id → Bool
  | [], [] => true
  | x :: xs, y :: ys => x == y && idEqual xs ys
  | _, _ => false

theorem idEqual_iff (a b : Id) : idEqual a b = true ↔ a = b := by
  induction a generalizing b with
  | nil => cases b <;> simp [idEqual]
  | cons x xs ih =>
    cases b with
    | nil => simp [idEqual]
    | cons y ys => simp [idEqual, ih]

/-- `Id.prototype.at` from `lib/id.js`: bit `i` of the id in big-endian
bit order, `(buf[i / 8 | 0] & (1 << (7 - i % 8))) > 0`. -/
def idAt (a : Id) (i : Nat) : Bool :=
  (a.getD (i / 8) 0) &&& (1 <<< (7 - i % 8)) != 0

/-- `Id.prototype.distanceTo` from `lib/id.js`: byte-wise XOR of the two
buffers. -/
def distBytes (a b : Id) : List Nat := List.zipWith (fun x y => x ^^^ y) a b

/-- Numeric (big-endian) value of a byte buffer; this is the unsigned
160-bit integer reading of an id or of a XOR distance. -/
def beNat : List Nat → Nat
  | [] => 0
  | x :: xs => x * 256 ^ xs.length + beNat xs

theorem beNat_cons (x : Nat) (xs : List Nat) :
    beNat (x :: xs) = x * 256 ^ xs.length + beNat xs := rfl

/-- The XOR distance between two ids, as the big-endian numeric value of
`distanceTo`'s buffer. -/
def distNat (a b : Id) : Nat := beNat (distBytes a b)

/-- `Id.prototype.compareDistance` from `lib/id.js`: walks the bytes of
the two XOR distances from `self`; returns `-1` at the first byte where
`first` is farther, `1` at the first byte where `first` is closer, and
`0` if all bytes agree. -/
def compareDistance : Id → Id → Id → Int
  | s :: ss, f :: fs, g :: gs =>
    let bt1 := s ^^^ f
    let bt2 := s ^^^ g
    if bt1 > bt2 then -1
    else if bt1 < bt2 then 1
    else compareDistance ss fs gs
  | _, _, _ => 0

theorem beNat_lt (l : List Nat) (h : ∀ b ∈ l, b < 256) :
    beNat l < 256 ^ l.length := by
  induction l with
  | nil => simp [beNat]
  | cons x xs ih =>
    have hx : x < 256 := h x (by simp)
    have hxs : beNat xs < 256 ^ xs.length := ih (fun b hb => h b (by simp [hb]))
    calc beNat (x :: xs) = x * 256 ^ xs.length + beNat xs := rfl
      _ < x * 256 ^ xs.length + 256 ^ xs.length := by omega
      _ = (x + 1) * 256 ^ xs.length := by ring
      _ ≤ 256 * 256 ^ xs.length := by
          have : x + 1 ≤ 256 := hx
          exact Nat.mul_le_mul_right _ this
      _ = 256 ^ (x :: xs).length := by
          simp [List.length_cons, pow_succ]; ring

theorem byte_xor_lt (x y : Nat) (hx : x < 256) (hy : y < 256) : x ^^^ y < 256 := by
  have : (256 : Nat) = 2 ^ 8 := by norm_num
  rw [this] at hx hy ⊢
  exact Nat.xor_lt_two_pow hx hy

theorem distBytes_bytes_lt (a b : Id)
    (ha : ∀ x ∈ a, x < 256) (hb : ∀ x ∈ b, x < 256) :
    ∀ z ∈ distBytes a b, z < 256 := by
  induction a generalizing b with
  | nil => simp [distBytes]
  | cons x xs ih =>
    cases b with
    | nil => simp [distBytes]
    | cons y ys =>
      intro z hz
      simp only [distBytes, List.zipWith_cons_cons, List.mem_cons] at hz
      rcases hz with hz | hz
      · subst hz
        exact byte_xor_lt x y (ha x (by simp)) (hb y (by simp))
      · exact ih ys (fun v hv => ha v (by simp [hv])) (fun v hv => hb v (by simp [hv])) z hz

theorem mul_add_lt_of_head_lt (B X1 X2 r1 r2 : Nat)
    (h1 : r1 < B) (hx : X1 < X2) : X1 * B + r1 < X2 * B + r2 := by
  calc X1 * B + r1 < X1 * B + B := by omega
    _ = (X1 + 1) * B := by ring
    _ ≤ X2 * B := Nat.mul_le_mul_right _ hx
    _ ≤ X2 * B + r2 := by omega

/-- The three-way byte-wise comparison agrees with the numeric ordering
of the two XOR distances (for equal-length buffers of bytes). -/
theorem compareDistance_spec (s f g : Id)
    (hs : ∀ b ∈ s, b < 256) (hf : ∀ b ∈ f, b < 256) (hg : ∀ b ∈ g, b < 256)
    (hlf : s.length = f.length) (hlg : s.length = g.length) :
    compareDistance s f g =
      (if distNat s f < distNat s g then 1
       else if distNat s g < distNat s f then -1 else 0) := by
  induction s generalizing f g with
  | nil =>
    cases f with
    | nil =>
      cases g with
      | nil => simp [compareDistance, distNat, distBytes, beNat]
      | cons y ys => simp at hlg
    | cons x xs => simp at hlf
  | cons a ss ih =>
    cases f with
    | nil => simp at hlf
    | cons b fs =>
      cases g with
      | nil => simp at hlg
      | cons c gs =>
        have hlf' : ss.length = fs.length := by simpa using hlf
        have hlg' : ss.length = gs.length := by simpa using hlg
        have hs' : ∀ x ∈ ss, x < 256 := fun v hv => hs v (by simp [hv])
        have hf' : ∀ x ∈ fs, x < 256 := fun v hv => hf v (by simp [hv])
        have hg' : ∀ x ∈ gs, x < 256 := fun v hv => hg v (by simp [hv])
        have hlzf : (distBytes ss fs).length = ss.length := by
          simp [distBytes, hlf']
        have hlzg : (distBytes ss gs).length = ss.length := by
          simp [distBytes, hlg']
        have hd1 : distNat ss fs < 256 ^ ss.length := by
          have := beNat_lt (distBytes ss fs) (distBytes_bytes_lt ss fs hs' hf')
          rwa [hlzf] at this
        have hd2 : distNat ss gs < 256 ^ ss.length := by
          have := beNat_lt (distBytes ss gs) (distBytes_bytes_lt ss gs hs' hg')
          rwa [hlzg] at this
        have hdbf : distBytes (a :: ss) (b :: fs) = (a ^^^ b) :: distBytes ss fs := rfl
        have hdbg : distBytes (a :: ss) (c :: gs) = (a ^^^ c) :: distBytes ss gs := rfl
        have hdf : distNat (a :: ss) (b :: fs)
            = (a ^^^ b) * 256 ^ ss.length + distNat ss fs := by
          unfold distNat
          rw [hdbf, beNat_cons, hlzf]
        have hdg : distNat (a :: ss) (c :: gs)
            = (a ^^^ c) * 256 ^ ss.length + distNat ss gs := by
          unfold distNat
          rw [hdbg, beNat_cons, hlzg]
        by_cases hgt : a ^^^ b > a ^^^ c
        · have hlt : distNat (a :: ss) (c :: gs) < distNat (a :: ss) (b :: fs) := by
            rw [hdf, hdg]
            exact mul_add_lt_of_head_lt _ _ _ _ _ hd2 hgt
          rw [show compareDistance (a :: ss) (b :: fs) (c :: gs) = -1 by
            simp only [compareDistance]; rw [if_pos hgt]]
          rw [if_neg (by omega), if_pos hlt]
        · by_cases hlt : a ^^^ b < a ^^^ c
          · have hlt2 : distNat (a :: ss) (b :: fs) < distNat (a :: ss) (c :: gs) := by
              rw [hdf, hdg]
              exact mul_add_lt_of_head_lt _ _ _ _ _ hd1 hlt
            rw [show compareDistance (a :: ss) (b :: fs) (c :: gs) = 1 by
              simp only [compareDistance]; rw [if_neg hgt, if_pos hlt]]
            rw [if_pos hlt2]
          · have heq : a ^^^ b = a ^^^ c := by omega
            have hcd : compareDistance (a :: ss) (b :: fs) (c :: gs)
                = compareDistance ss fs gs := by
              simp only [compareDistance]; rw [if_neg hgt, if_neg hlt]
            rw [hcd, ih fs gs hs' hf' hg' hlf' hlg']
            rw [hdf, hdg, heq]
            have h1 : (a ^^^ c) * 256 ^ ss.length + distNat ss fs
                < (a ^^^ c) * 256 ^ ss.length + distNat ss gs
                ↔ distNat ss fs < distNat ss gs := by omega
            have h2 : (a ^^^ c) * 256 ^ ss.length + distNat ss gs
                < (a ^^^ c) * 256 ^ ss.length + distNat ss fs
                ↔ distNat ss gs < distNat ss fs := by omega
            by_cases hA : distNat ss fs < distNat ss gs
            · rw [if_pos hA, if_pos (h1.mpr hA)]
            · rw [if_neg hA, if_neg (fun hc0 => hA (h1.mp hc0))]
              by_cases hB : distNat ss gs < distNat ss fs
              · rw [if_pos hB, if_pos (h2.mpr hB)]
              · rw [if_neg hB, if_neg (fun hc0 => hB (h2.mp hc0))]

/-- Positivity form: `compareDistance self first second > 0` holds exactly
when `first` is numerically strictly closer to `self` than `second`. -/
theorem compareDistance_pos_iff (s f g : Id)
    (hs : IdOk s) (hf : IdOk f) (hg : IdOk g) :
    compareDistance s f g > 0 ↔ distNat s f < distNat s g := by
  rw [compareDistance_spec s f g hs.2 hf.2 hg.2 (hs.1.trans hf.1.symm) (hs.1.trans hg.1.symm)]
  by_cases h1 : distNat s f < distNat s g
  · simp [h1]
  · rw [if_neg h1]
    by_cases h2 : distNat s g < distNat s f
    · simp [h2, h1]
    · simp [h2, h1]

/-- Negativity form: `compareDistance self first second < 0` holds exactly
when `second` is numerically strictly closer to `self` than `first`. -/
theorem compareDistance_neg_iff (s f g : Id)
    (hs : IdOk s) (hf : IdOk f) (hg : IdOk g) :
    compareDistance s f g < 0 ↔ distNat s g < distNat s f := by
  rw [compareDistance_spec s f g hs.2 hf.2 hg.2 (hs.1.trans hf.1.symm) (hs.1.trans hg.1.symm)]
  by_cases h1 : distNat s f < distNat s g
  · simp [h1]
    omega
  · rw [if_neg h1]
    by_cases h2 : distNat s g < distNat s f
    · simp [h2]
    · simp [h2]

/-!
## Contacts, buckets, and the routing table

`lib/contact.js`, `lib/bucket.js`, `lib/routing-table.js`.
-/

/-- A contact from `lib/contact.js`: an id plus opaque endpoint
information.  The endpoint is only ever compared through its serialized
form (`JSON.stringify`), so it is modelled directly as that string. -/
structure Contact where
  id : Id
  endpoint : String
deriving DecidableEq, Repr

/-- A bucket from `lib/bucket.js`: capacity, binary prefix (a string of
0s and 1s, as in the JS), the contact list ordered oldest first, and the
optional `refreshed` timestamp. -/
structure Bucket where
  capacity : Nat
  pfx : String
  store : List Contact
  refreshed : Option ℤ := none
deriving DecidableEq, Repr

/-- The contact-removal loop shared by `Bucket.prototype.remove` (and by
`store` which calls it first): removes the first contact whose id equals
the given one, returning the new list and the removed contact. -/
def removeById : List Contact → Id → List Contact × Option Contact
  | [], _ => ([], none)
  | c :: cs, i =>
    if idEqual c.id i then (cs, some c)
    else
      let r := removeById cs i
      (c :: r.1, r.2)

/-- `Bucket.prototype.store`: first remove any contact with the same id,
then fail if the bucket is at capacity, else append at the tail. -/
def bucketStore (b : Bucket) (c : Contact) : Bucket × Bool :=
  let s1 := (removeById b.store c.id).1
  if s1.length == b.capacity then ({ b with store := s1 }, false)
  else ({ b with store := s1 ++ [c] }, true)

/-- `Bucket.oldest`: the head of the store, `none` when empty. -/
def bucketOldest (b : Bucket) : Option Contact := b.store.head?

/-- `Bucket.prototype.countClosestNodes`: counts the stored contacts `c`
with `refId.compareDistance(id, c.id) > 0`. -/
def bucketCountClosestNodes (b : Bucket) (id refId : Id) : Nat :=
  (b.store.filter (fun c => compareDistance refId id c.id > 0)).length

/-- `Bucket.prototype.obtain`: up to the first `n` contacts (all of them
when `n` is omitted, modelled by `none`). -/
def bucketObtain (b : Bucket) (n : Option Nat) : List Contact :=
  match n with
  | none => b.store
  | some n => if b.store.length ≤ n then b.store else b.store.take n

/-- The loop of `Bucket.prototype.split`: distribute the contacts over
the `left` and `right` child buckets according to their `nth` id bit,
preserving relative order (each side is filled with `Bucket.store`). -/
def bucketSplitGo : List Contact → Nat → Bucket → Bucket → Bucket × Bucket
  | [], _, l, r => (l, r)
  | c :: cs, nth, l, r =>
    if idAt c.id nth then bucketSplitGo cs nth l (bucketStore r c).1
    else bucketSplitGo cs nth (bucketStore l c).1 r

/-- `Bucket.prototype.markRefreshed`. -/
def bucketMarkRefreshed (b : Bucket) (now : ℤ) : Bucket :=
  { b with refreshed := some now }

/-- The routing-table tree: leaves are buckets, internal nodes have a
left child (bit 0) and a right child (bit 1), as in
`lib/routing-table.js` where internal nodes are `{left, right}` records. -/
inductive RNode where
  | leaf (b : Bucket)
  | branch (l r : RNode)
deriving DecidableEq, Repr

/-- All contacts stored anywhere in a routing tree, left to right. -/
def contactsOf : RNode → List Contact
  | .leaf b => b.store
  | .branch l r => contactsOf l ++ contactsOf r

/-- The routing table: local id, bucket size `k`, the bucket tree, and
the endpoint registry `_endpoints` mapping a serialized endpoint to the
id claiming it (a JS object, modelled as an association list). -/
structure RoutingTable where
  localId : Id
  bucketSize : Nat
  root : RNode
  endpoints : List (String × Id)
deriving DecidableEq, Repr

/-- The `RoutingTable` constructor: a single empty root bucket with the
empty prefix and no registered endpoints. -/
def RoutingTable.init (localId : Id) (bucketSize : Nat) : RoutingTable :=
  ⟨localId, bucketSize, .leaf ⟨bucketSize, "", [], none⟩, []⟩

/-- Association-list lookup for JS-object maps keyed by strings. -/
def alookup {α : Type _} : List (String × α) → String → Option α
  | [], _ => none
  | (k, v) :: l, key => if k == key then some v else alookup l key

/-- Association-list update: JS property assignment `obj[k] = v`
(replace the binding if the key is present, else append). -/
def aset {α : Type _} : List (String × α) → String → α → List (String × α)
  | [], key, v => [(key, v)]
  | (k, w) :: l, key, v =>
    if k == key then (k, v) :: l else (k, w) :: aset l key v

/-- Association-list deletion: JS `delete obj[k]`. -/
def aerase {α : Type _} : List (String × α) → String → List (String × α)
  | [], _ => []
  | (k, w) :: l, key => if k == key then l else (k, w) :: aerase l key

/-- `RoutingTable.prototype._findBucket`, walking the tree by the bits
of `id` (model of the in-place removal below uses the same walk).
Returns the leaf bucket, the accumulated `allowSplit` flag, and the
depth `nth` at which the bucket sits. -/
def findBucketInfo (lid : Id) : RNode → Id → Nat → Bool → Bucket × Bool × Nat
  | .leaf b, id, d, allow => (b, allow && (idAt id d == idAt lid d), d)
  | .branch l r, id, d, allow =>
    if idAt id d then findBucketInfo lid r id (d + 1) (allow && (idAt id d == idAt lid d))
    else findBucketInfo lid l id (d + 1) (allow && (idAt id d == idAt lid d))

/-- `RoutingTable.prototype._removeId`: find the bucket on `id`'s path
and remove the contact there.  The JS mutates the found bucket in
place; the functional embedding rebuilds the tree along the same path. -/
def removeInNode : RNode → Id → Nat → RNode × Option Contact
  | .leaf b, id, _ =>
    let r := removeById b.store id
    (.leaf { b with store := r.1 }, r.2)
  | .branch l r, id, d =>
    if idAt id d then
      let res := removeInNode r id (d + 1)
      (.branch l res.1, res.2)
    else
      let res := removeInNode l id (d + 1)
      (.branch res.1 r, res.2)

def rtRemoveId (t : RoutingTable) (id : Id) : RoutingTable × Option Contact :=
  let r := removeInNode t.root id 0
  ({ t with root := r.1 }, r.2)

/-- `RoutingTable.prototype._addRemoveEndpoint`: register `id` for the
serialized endpoint; if a different id previously claimed that
endpoint, the old binding is deleted and the old id is removed from the
table.  `id = none` models the call with no id (pure removal). -/
def addRemoveEndpoint (t : RoutingTable) (endpointKey : String) (id : Option Id) :
    RoutingTable :=
  let oldId := alookup t.endpoints endpointKey
  let t1 :=
    match oldId with
    | some oldId =>
      if id.all (fun i => !idEqual oldId i) then
        let t' := { t with endpoints := aerase t.endpoints endpointKey }
        (rtRemoveId t' oldId).1
      else t
    | none => t
  match id with
  | some i => { t1 with endpoints := aset t1.endpoints endpointKey i }
  | none => t1

/-- The walk of `RoutingTable.prototype.store` below the initial
local-id check: descend to the bucket of `contact.id`, accumulating
`allowSplit` and the string prefix; at the leaf either insert, report
the oldest contact of a full unsplittable bucket, or split once
(`_splitAndStore`) and insert into the fresh child.  Returns the new
subtree, the eviction candidate, and whether the contact was accepted
(so that the caller registers the endpoint). -/
def storeInNode (lid : Id) (ksize : Nat) (c : Contact) :
    RNode → Nat → Bool → String → RNode × Option Contact × Bool
  | .leaf b, d, allow, pfx =>
    let bit := idAt c.id d
    let allow := allow && (bit == idAt lid d)
    let sres := bucketStore b c
    if sres.2 then (.leaf sres.1, none, true)
    else if !allow || d + 1 == BIT_SIZE then (.leaf sres.1, bucketOldest sres.1, false)
    else
      let l0 : Bucket := ⟨ksize, pfx ++ "0", [], none⟩
      let r0 : Bucket := ⟨ksize, pfx ++ "1", [], none⟩
      let lr := bucketSplitGo sres.1.store d l0 r0
      if bit then (.branch (.leaf lr.1) (.leaf (bucketStore lr.2 c).1), none, true)
      else (.branch (.leaf (bucketStore lr.1 c).1) (.leaf lr.2), none, true)
  | .branch l r, d, allow, pfx =>
    let bit := idAt c.id d
    let allow := allow && (bit == idAt lid d)
    if bit then
      let res := storeInNode lid ksize c r (d + 1) allow (pfx ++ "1")
      (.branch l res.1, res.2.1, res.2.2)
    else
      let res := storeInNode lid ksize c l (d + 1) allow (pfx ++ "0")
      (.branch res.1 r, res.2.1, res.2.2)

/-- `RoutingTable.prototype.store`: reject the local id, otherwise walk
to the bucket and insert / evict / split; on acceptance register the
endpoint.  Returns the table and the eviction candidate (`none` is the
JS `null` return). -/
def rtStore (t : RoutingTable) (c : Contact) : RoutingTable × Option Contact :=
  if idEqual c.id t.localId then (t, none)
  else
    let res := storeInNode t.localId t.bucketSize c t.root 0 true ""
    let t1 := { t with root := res.1 }
    if res.2.2 then (addRemoveEndpoint t1 c.endpoint (some c.id), none)
    else (t1, res.2.1)

/-- `RoutingTable.prototype.storeSome`. -/
def rtStoreSome (t : RoutingTable) (cs : List Contact) : RoutingTable :=
  cs.foldl (fun t c => (rtStore t c).1) t

/-- `RoutingTable.prototype.remove`: remove the contact by id, then
unregister its endpoint (of the removed contact if found, else of the
argument; the JS skips the endpoint step for a falsy endpoint). -/
def rtRemove (t : RoutingTable) (c : Contact) : RoutingTable × Bool :=
  let r := rtRemoveId t c.id
  let endpoint := match r.2 with
    | some c' => c'.endpoint
    | none => c.endpoint
  let t2 := if endpoint == "" then r.1 else addRemoveEndpoint r.1 endpoint none
  (t2, r.2.isSome)

/-- `RoutingTable.prototype.countClosestNodes`: sum over every bucket of
`bucket.countClosestNodes(id, localId)`. -/
def rtCountClosestNodesGo (id refId : Id) : RNode → Nat
  | .leaf b => bucketCountClosestNodes b id refId
  | .branch l r => rtCountClosestNodesGo id refId l + rtCountClosestNodesGo id refId r

def rtCountClosestNodes (t : RoutingTable) (id : Id) : Nat :=
  rtCountClosestNodesGo id t.localId t.root

/-- `RoutingTable.prototype.markRefreshed` (sets the `refreshed` stamp
of the bucket covering `id`). -/
def markRefreshedNode : RNode → Id → Nat → ℤ → RNode
  | .leaf b, _, _, now => .leaf (bucketMarkRefreshed b now)
  | .branch l r, id, d, now =>
    if idAt id d then .branch l (markRefreshedNode r id (d + 1) now)
    else .branch (markRefreshedNode l id (d + 1) now) r

def rtMarkRefreshed (t : RoutingTable) (id : Id) (now : ℤ) : RoutingTable :=
  { t with root := markRefreshedNode t.root id 0 now }

/-- The routing-table states reachable from a freshly constructed table
through the public mutators `store` and `remove` (`storeSome` and the
DHT's `_discovered` are compositions of these two).  The `Bucket`
constructor throws on a non-positive capacity, hence the positivity
hypothesis on construction. -/
inductive Reachable : RoutingTable → Prop
  | init (localId : Id) (bucketSize : Nat) (hpos : 0 < bucketSize) :
      Reachable (RoutingTable.init localId bucketSize)
  | store (t : RoutingTable) (c : Contact) :
      Reachable t → Reachable (rtStore t c).1
  | remove (t : RoutingTable) (c : Contact) :
      Reachable t → Reachable (rtRemove t c).1

/-!
## Routing-table well-formedness

The structural invariants of the bucket tree (spec §3): contacts sit in
the leaf whose path matches their id bits, and no bucket holds two
contacts with the same id.  These are used to reason about contact
removal through the endpoint registry.
-/

/-- No two contacts of a bucket's store have equal ids. -/
def noDupIds : List Contact → Bool
  | [] => true
  | c :: cs => cs.all (fun x => !(idEqual x.id c.id)) && noDupIds cs

/-- Well-formedness of a subtree hanging at depth `d`, where `P`
collects the bit constraints accumulated on the path from the root:
every stored contact's id satisfies `P`, and buckets have no duplicate
ids. -/
def nodeWF : RNode → Nat → (Id → Bool) → Bool
  | .leaf b, _, P => b.store.all (fun c => P c.id) && noDupIds b.store
  | .branch l r, d, P =>
    nodeWF l (d + 1) (fun id => P id && !(idAt id d)) &&
    nodeWF r (d + 1) (fun id => P id && idAt id d)

def rtWF (t : RoutingTable) : Bool := nodeWF t.root 0 (fun _ => true)

/-- Key uniqueness in an association list (automatic for a JS object). -/
def keysNoDup {α : Type _} : List (String × α) → Bool
  | [] => true
  | (k, _) :: l => l.all (fun p => !(p.1 == k)) && keysNoDup l

def allBuckets (p : Bucket → Bool) : RNode → Bool
  | .leaf b => p b
  | .branch l r => allBuckets p l && allBuckets p r

/-- Every bucket of the table has the table's configured capacity. -/
def capsEq (t : RoutingTable) : Bool :=
  allBuckets (fun b => b.capacity == t.bucketSize) t.root

theorem idEqual_refl (a : Id) : idEqual a a = true := (idEqual_iff _ _).mpr rfl

theorem idEqual_comm (a b : Id) : idEqual a b = idEqual b a := by
  by_cases h : a = b
  · subst h; rfl
  · have h1 : idEqual a b = false := by
      rw [Bool.eq_false_iff]
      intro hc; exact h ((idEqual_iff _ _).mp hc)
    have h2 : idEqual b a = false := by
      rw [Bool.eq_false_iff]
      intro hc; exact h ((idEqual_iff _ _).mp hc).symm
    rw [h1, h2]

theorem removeById_subset (l : List Contact) (i : Id) :
    ∀ x ∈ (removeById l i).1, x ∈ l := by
  induction l with
  | nil => simp [removeById]
  | cons c cs ih =>
    intro x hx
    simp only [removeById] at hx
    by_cases h : idEqual c.id i = true
    · rw [if_pos h] at hx
      exact List.mem_cons_of_mem _ hx
    · rw [if_neg h] at hx
      rcases List.mem_cons.mp hx with h1 | h1
      · exact h1 ▸ List.mem_cons_self _ _
      · exact List.mem_cons_of_mem _ (ih x h1)

theorem noDupIds_removeById (l : List Contact) (i : Id) (h : noDupIds l = true) :
    noDupIds (removeById l i).1 = true := by
  induction l with
  | nil => simpa [removeById] using h
  | cons c cs ih =>
    simp only [noDupIds, Bool.and_eq_true, List.all_eq_true] at h
    simp only [removeById]
    by_cases hc : idEqual c.id i = true
    · rw [if_pos hc]; exact h.2
    · rw [if_neg hc]
      simp only [noDupIds, Bool.and_eq_true, List.all_eq_true]
      refine ⟨fun x hx => h.1 x (removeById_subset cs i x hx), ih h.2⟩

theorem removeById_all_not (l : List Contact) (i : Id) (h : noDupIds l = true) :
    ∀ x ∈ (removeById l i).1, idEqual x.id i = false := by
  induction l with
  | nil => simp [removeById]
  | cons c cs ih =>
    simp only [noDupIds, Bool.and_eq_true, List.all_eq_true] at h
    intro x hx
    simp only [removeById] at hx
    by_cases hc : idEqual c.id i = true
    · rw [if_pos hc] at hx
      have hne : idEqual x.id c.id = false := by
        have := h.1 x hx
        simpa using this
      have hcid : c.id = i := (idEqual_iff _ _).mp hc
      rw [← hcid]; exact hne
    · rw [if_neg hc] at hx
      rcases List.mem_cons.mp hx with h1 | h1
      · subst h1
        exact Bool.eq_false_iff.mpr hc
      · exact ih h.2 x h1

theorem removeById_of_all_not (l : List Contact) (i : Id)
    (h : ∀ x ∈ l, idEqual x.id i = false) : removeById l i = (l, none) := by
  induction l with
  | nil => rfl
  | cons c cs ih =>
    simp only [removeById]
    rw [if_neg (by simpa using h c (List.mem_cons_self _ _))]
    rw [ih (fun x hx => h x (List.mem_cons_of_mem _ hx))]

theorem bucketStore_mem (b : Bucket) (c : Contact) :
    ∀ x ∈ (bucketStore b c).1.store, x ∈ b.store ∨ x = c := by
  intro x hx
  simp only [bucketStore] at hx
  by_cases h : ((removeById b.store c.id).1.length == b.capacity) = true
  · rw [if_pos h] at hx
    exact Or.inl (removeById_subset _ _ x hx)
  · rw [if_neg h] at hx
    simp only [List.mem_append, List.mem_singleton] at hx
    rcases hx with h1 | h1
    · exact Or.inl (removeById_subset _ _ x h1)
    · exact Or.inr h1

theorem noDupIds_append_single (l : List Contact) (c : Contact)
    (h : noDupIds l = true) (hc : ∀ x ∈ l, idEqual x.id c.id = false) :
    noDupIds (l ++ [c]) = true := by
  induction l with
  | nil => simp [noDupIds]
  | cons d ds ih =>
    simp only [noDupIds, Bool.and_eq_true, List.all_eq_true] at h
    simp only [List.cons_append, noDupIds, Bool.and_eq_true, List.all_eq_true]
    constructor
    · intro x hx
      rcases List.mem_append.mp hx with h1 | h1
      · simpa using h.1 x h1
      · rcases List.mem_singleton.mp h1 with rfl
        have := hc d (List.mem_cons_self _ _)
        rw [idEqual_comm] at this
        simpa using this
    · exact ih h.2 (fun x hx => hc x (List.mem_cons_of_mem _ hx))

theorem noDupIds_bucketStore (b : Bucket) (c : Contact) (h : noDupIds b.store = true) :
    noDupIds (bucketStore b c).1.store = true := by
  simp only [bucketStore]
  by_cases hfull : ((removeById b.store c.id).1.length == b.capacity) = true
  · rw [if_pos hfull]
    exact noDupIds_removeById _ _ h
  · rw [if_neg hfull]
    simp only
    exact noDupIds_append_single _ _ (noDupIds_removeById _ _ h)
      (removeById_all_not _ _ h)

theorem bucketStore_capacity (b : Bucket) (c : Contact) :
    (bucketStore b c).1.capacity = b.capacity := by
  simp only [bucketStore]
  by_cases hfull : ((removeById b.store c.id).1.length == b.capacity) = true
  · rw [if_pos hfull]
  · rw [if_neg hfull]

theorem bucketSplitGo_mem (s : List Contact) (nth : Nat) (l r : Bucket) :
    (∀ x ∈ (bucketSplitGo s nth l r).1.store, x ∈ s ∨ x ∈ l.store) ∧
    (∀ x ∈ (bucketSplitGo s nth l r).2.store, x ∈ s ∨ x ∈ r.store) := by
  induction s generalizing l r with
  | nil => simp [bucketSplitGo]
  | cons c cs ih =>
    simp only [bucketSplitGo]
    by_cases hbit : idAt c.id nth = true
    · rw [if_pos hbit]
      rcases ih l (bucketStore r c).1 with ⟨h1, h2⟩
      constructor
      · intro x hx
        rcases h1 x hx with h | h
        · exact Or.inl (List.mem_cons_of_mem _ h)
        · exact Or.inr h
      · intro x hx
        rcases h2 x hx with h | h
        · exact Or.inl (List.mem_cons_of_mem _ h)
        · rcases bucketStore_mem r c x h with h | h
          · exact Or.inr h
          · exact Or.inl (h ▸ List.mem_cons_self _ _)
    · rw [if_neg hbit]
      rcases ih (bucketStore l c).1 r with ⟨h1, h2⟩
      constructor
      · intro x hx
        rcases h1 x hx with h | h
        · exact Or.inl (List.mem_cons_of_mem _ h)
        · rcases bucketStore_mem l c x h with h | h
          · exact Or.inr h
          · exact Or.inl (h ▸ List.mem_cons_self _ _)
      · intro x hx
        rcases h2 x hx with h | h
        · exact Or.inl (List.mem_cons_of_mem _ h)
        · exact Or.inr h

theorem bucketSplitGo_noDup (s : List Contact) (nth : Nat) (l r : Bucket)
    (hl : noDupIds l.store = true) (hr : noDupIds r.store = true) :
    noDupIds (bucketSplitGo s nth l r).1.store = true ∧
    noDupIds (bucketSplitGo s nth l r).2.store = true := by
  induction s generalizing l r with
  | nil => exact ⟨hl, hr⟩
  | cons c cs ih =>
    simp only [bucketSplitGo]
    by_cases hbit : idAt c.id nth = true
    · rw [if_pos hbit]
      exact ih l (bucketStore r c).1 hl (noDupIds_bucketStore _ _ hr)
    · rw [if_neg hbit]
      exact ih (bucketStore l c).1 r (noDupIds_bucketStore _ _ hl) hr

theorem bucketSplitGo_capacity (s : List Contact) (nth : Nat) (l r : Bucket) :
    (bucketSplitGo s nth l r).1.capacity = l.capacity ∧
    (bucketSplitGo s nth l r).2.capacity = r.capacity := by
  induction s generalizing l r with
  | nil => exact ⟨rfl, rfl⟩
  | cons c cs ih =>
    simp only [bucketSplitGo]
    by_cases hbit : idAt c.id nth = true
    · rw [if_pos hbit]
      rcases ih l (bucketStore r c).1 with ⟨h1, h2⟩
      exact ⟨h1, h2.trans (bucketStore_capacity _ _)⟩
    · rw [if_neg hbit]
      rcases ih (bucketStore l c).1 r with ⟨h1, h2⟩
      exact ⟨h1.trans (bucketStore_capacity _ _), h2⟩

/-- The sides of a split hold only contacts whose `nth` bit matches the
side (false left, true right), when fed from initially empty sides. -/
theorem bucketSplitGo_bits (s : List Contact) (nth : Nat) (l r : Bucket)
    (hl : ∀ x ∈ l.store, idAt x.id nth = false)
    (hr : ∀ x ∈ r.store, idAt x.id nth = true) :
    (∀ x ∈ (bucketSplitGo s nth l r).1.store, idAt x.id nth = false) ∧
    (∀ x ∈ (bucketSplitGo s nth l r).2.store, idAt x.id nth = true) := by
  induction s generalizing l r with
  | nil => exact ⟨hl, hr⟩
  | cons c cs ih =>
    simp only [bucketSplitGo]
    by_cases hbit : idAt c.id nth = true
    · rw [if_pos hbit]
      refine ih l (bucketStore r c).1 hl ?_
      intro x hx
      rcases bucketStore_mem r c x hx with h | h
      · exact hr x h
      · exact h ▸ hbit
    · rw [if_neg hbit]
      refine ih (bucketStore l c).1 r ?_ hr
      intro x hx
      rcases bucketStore_mem l c x hx with h | h
      · exact hl x h
      · exact h ▸ Bool.eq_false_iff.mpr hbit

theorem nodeWF_implies_pred (n : RNode) (d : Nat) (P : Id → Bool)
    (h : nodeWF n d P = true) : ∀ x ∈ contactsOf n, P x.id = true := by
  induction n generalizing d P with
  | leaf b =>
    simp only [nodeWF, Bool.and_eq_true, List.all_eq_true] at h
    intro x hx
    exact h.1 x hx
  | branch l r ihl ihr =>
    simp only [nodeWF, Bool.and_eq_true] at h
    intro x hx
    rcases List.mem_append.mp hx with hm | hm
    · have := ihl _ _ h.1 x hm
      simp only [Bool.and_eq_true] at this
      exact this.1
    · have := ihr _ _ h.2 x hm
      simp only [Bool.and_eq_true] at this
      exact this.1

theorem mem_contactsOf_storeInNode (lid : Id) (ks : Nat) (c : Contact) :
    ∀ (n : RNode) (d : Nat) (allow : Bool) (pfx : String),
    ∀ x ∈ contactsOf (storeInNode lid ks c n d allow pfx).1,
      x ∈ contactsOf n ∨ x = c := by
  intro n
  induction n with
  | leaf b =>
    intro d allow pfx x hx
    simp only [storeInNode] at hx
    by_cases hok : (bucketStore b c).2 = true
    · rw [if_pos hok] at hx
      simp only [contactsOf] at hx
      exact bucketStore_mem b c x hx
    · rw [if_neg hok] at hx
      by_cases hstop : (!(allow && (idAt c.id d == idAt lid d)) || d + 1 == BIT_SIZE) = true
      · rw [if_pos hstop] at hx
        simp only [contactsOf] at hx
        rcases bucketStore_mem b c x hx with h | h
        · exact Or.inl h
        · exact Or.inr h
      · rw [if_neg hstop] at hx
        by_cases hbit : idAt c.id d = true
        · rw [if_pos hbit] at hx
          simp only [contactsOf, List.mem_append] at hx
          rcases hx with hm | hm
          · rcases (bucketSplitGo_mem _ _ _ _).1 x hm with h | h
            · rcases bucketStore_mem b c x h with h2 | h2
              · exact Or.inl h2
              · exact Or.inr h2
            · simp at h
          · rcases bucketStore_mem _ c x hm with h | h
            · rcases (bucketSplitGo_mem _ _ _ _).2 x h with h2 | h2
              · rcases bucketStore_mem b c x h2 with h3 | h3
                · exact Or.inl h3
                · exact Or.inr h3
              · simp at h2
            · exact Or.inr h
        · rw [if_neg hbit] at hx
          simp only [contactsOf, List.mem_append] at hx
          rcases hx with hm | hm
          · rcases bucketStore_mem _ c x hm with h | h
            · rcases (bucketSplitGo_mem _ _ _ _).1 x h with h2 | h2
              · rcases bucketStore_mem b c x h2 with h3 | h3
                · exact Or.inl h3
                · exact Or.inr h3
              · simp at h2
            · exact Or.inr h
          · rcases (bucketSplitGo_mem _ _ _ _).2 x hm with h | h
            · rcases bucketStore_mem b c x h with h2 | h2
              · exact Or.inl h2
              · exact Or.inr h2
            · simp at h
  | branch l r ihl ihr =>
    intro d allow pfx x hx
    simp only [storeInNode] at hx
    by_cases hbit : idAt c.id d = true
    · rw [if_pos hbit] at hx
      simp only [contactsOf, List.mem_append] at hx
      rcases hx with hm | hm
      · exact Or.inl (List.mem_append.mpr (Or.inl hm))
      · rcases ihr _ _ _ x hm with h | h
        · exact Or.inl (List.mem_append.mpr (Or.inr h))
        · exact Or.inr h
    · rw [if_neg hbit] at hx
      simp only [contactsOf, List.mem_append] at hx
      rcases hx with hm | hm
      · rcases ihl _ _ _ x hm with h | h
        · exact Or.inl (List.mem_append.mpr (Or.inl h))
        · exact Or.inr h
      · exact Or.inl (List.mem_append.mpr (Or.inr hm))

theorem mem_contactsOf_removeInNode (i : Id) :
    ∀ (n : RNode) (d : Nat), ∀ x ∈ contactsOf (removeInNode n i d).1, x ∈ contactsOf n := by
  intro n
  induction n with
  | leaf b =>
    intro d x hx
    simp only [removeInNode, contactsOf] at hx
    exact removeById_subset _ _ x hx
  | branch l r ihl ihr =>
    intro d x hx
    simp only [removeInNode] at hx
    by_cases hbit : idAt i d = true
    · rw [if_pos hbit] at hx
      simp only [contactsOf, List.mem_append] at hx
      rcases hx with hm | hm
      · exact List.mem_append.mpr (Or.inl hm)
      · exact List.mem_append.mpr (Or.inr (ihr _ x hm))
    · rw [if_neg hbit] at hx
      simp only [contactsOf, List.mem_append] at hx
      rcases hx with hm | hm
      · exact List.mem_append.mpr (Or.inl (ihl _ x hm))
      · exact List.mem_append.mpr (Or.inr hm)

theorem nodeWF_storeInNode (lid : Id) (ks : Nat) (c : Contact) :
    ∀ (n : RNode) (d : Nat) (allow : Bool) (pfx : String) (P : Id → Bool),
    nodeWF n d P = true → P c.id = true →
    nodeWF (storeInNode lid ks c n d allow pfx).1 d P = true := by
  intro n
  induction n with
  | leaf b =>
    intro d allow pfx P h hP
    simp only [nodeWF, Bool.and_eq_true, List.all_eq_true] at h
    rcases h with ⟨hall, hnd⟩
    simp only [storeInNode]
    have hleafStore : nodeWF (.leaf (bucketStore b c).1) d P = true := by
      simp only [nodeWF, Bool.and_eq_true, List.all_eq_true]
      refine ⟨?_, noDupIds_bucketStore b c hnd⟩
      intro x hx
      rcases bucketStore_mem b c x hx with hm | hm
      · exact hall x hm
      · exact hm ▸ hP
    by_cases hok : (bucketStore b c).2 = true
    · rw [if_pos hok]; exact hleafStore
    · rw [if_neg hok]
      by_cases hstop : (!(allow && (idAt c.id d == idAt lid d)) || d + 1 == BIT_SIZE) = true
      · rw [if_pos hstop]; exact hleafStore
      · rw [if_neg hstop]
        have hndS : noDupIds (bucketStore b c).1.store = true := noDupIds_bucketStore b c hnd
        have hallS : ∀ x ∈ (bucketStore b c).1.store, P x.id = true := by
          intro x hx
          rcases bucketStore_mem b c x hx with hm | hm
          · exact hall x hm
          · exact hm ▸ hP
        have hbits := bucketSplitGo_bits (bucketStore b c).1.store d
          ⟨ks, pfx ++ "0", [], none⟩ ⟨ks, pfx ++ "1", [], none⟩ (by simp) (by simp)
        have hmem := bucketSplitGo_mem (bucketStore b c).1.store d
          ⟨ks, pfx ++ "0", [], none⟩ ⟨ks, pfx ++ "1", [], none⟩
        have hnds := bucketSplitGo_noDup (bucketStore b c).1.store d
          ⟨ks, pfx ++ "0", [], none⟩ ⟨ks, pfx ++ "1", [], none⟩ rfl rfl
        by_cases hbit : idAt c.id d = true
        · rw [if_pos hbit]
          simp only [nodeWF, Bool.and_eq_true, List.all_eq_true]
          refine ⟨⟨?_, hnds.1⟩, ⟨?_, noDupIds_bucketStore _ c hnds.2⟩⟩
          · intro x hx
            have hP' : P x.id = true := by
              rcases hmem.1 x hx with hm | hm
              · exact hallS x hm
              · simp at hm
            have hb' : idAt x.id d = false := hbits.1 x hx
            simp [hP', hb']
          · intro x hx
            rcases bucketStore_mem _ c x hx with hm | hm
            · have hP' : P x.id = true := by
                rcases hmem.2 x hm with hm2 | hm2
                · exact hallS x hm2
                · simp at hm2
              have hb' : idAt x.id d = true := hbits.2 x hm
              simp [hP', hb']
            · subst hm
              simp [hP, hbit]
        · rw [if_neg hbit]
          simp only [nodeWF, Bool.and_eq_true, List.all_eq_true]
          refine ⟨⟨?_, noDupIds_bucketStore _ c hnds.1⟩, ⟨?_, hnds.2⟩⟩
          · intro x hx
            rcases bucketStore_mem _ c x hx with hm | hm
            · have hP' : P x.id = true := by
                rcases hmem.1 x hm with hm2 | hm2
                · exact hallS x hm2
                · simp at hm2
              have hb' : idAt x.id d = false := hbits.1 x hm
              simp [hP', hb']
            · subst hm
              simp [hP, hbit]
          · intro x hx
            have hP' : P x.id = true := by
              rcases hmem.2 x hx with hm | hm
              · exact hallS x hm
              · simp at hm
            have hb' : idAt x.id d = true := hbits.2 x hx
            simp [hP', hb']
  | branch l r ihl ihr =>
    intro d allow pfx P h hP
    simp only [nodeWF, Bool.and_eq_true] at h
    simp only [storeInNode]
    by_cases hbit : idAt c.id d = true
    · rw [if_pos hbit]
      simp only [nodeWF, Bool.and_eq_true]
      exact ⟨h.1, ihr _ _ _ _ h.2 (by simp [hP, hbit])⟩
    · rw [if_neg hbit]
      simp only [nodeWF, Bool.and_eq_true]
      exact ⟨ihl _ _ _ _ h.1 (by simp [hP, hbit]), h.2⟩

theorem nodeWF_removeInNode (i : Id) :
    ∀ (n : RNode) (d : Nat) (P : Id → Bool),
    nodeWF n d P = true → nodeWF (removeInNode n i d).1 d P = true := by
  intro n
  induction n with
  | leaf b =>
    intro d P h
    simp only [nodeWF, Bool.and_eq_true, List.all_eq_true] at h
    simp only [removeInNode, nodeWF, Bool.and_eq_true, List.all_eq_true]
    exact ⟨fun x hx => h.1 x (removeById_subset _ _ x hx),
           noDupIds_removeById _ _ h.2⟩
  | branch l r ihl ihr =>
    intro d P h
    simp only [nodeWF, Bool.and_eq_true] at h
    simp only [removeInNode]
    by_cases hbit : idAt i d = true
    · rw [if_pos hbit]
      simp only [nodeWF, Bool.and_eq_true]
      exact ⟨h.1, ihr _ _ h.2⟩
    · rw [if_neg hbit]
      simp only [nodeWF, Bool.and_eq_true]
      exact ⟨ihl _ _ h.1, h.2⟩

/-- Under well-formedness, removing an id from the tree leaves no
contact with that id anywhere: all same-id contacts live in the single
bucket on the id's bit path, that bucket holds at most one of them, and
the walk removes it. -/
theorem removeInNode_no_id (i : Id) :
    ∀ (n : RNode) (d : Nat) (P : Id → Bool),
    nodeWF n d P = true →
    ∀ x ∈ contactsOf (removeInNode n i d).1, idEqual x.id i = false := by
  intro n
  induction n with
  | leaf b =>
    intro d P h x hx
    simp only [nodeWF, Bool.and_eq_true, List.all_eq_true] at h
    simp only [removeInNode, contactsOf] at hx
    exact removeById_all_not _ _ h.2 x hx
  | branch l r ihl ihr =>
    intro d P h x hx
    simp only [nodeWF, Bool.and_eq_true] at h
    simp only [removeInNode] at hx
    by_cases hbit : idAt i d = true
    · rw [if_pos hbit] at hx
      simp only [contactsOf, List.mem_append] at hx
      rcases hx with hm | hm
      · have := nodeWF_implies_pred _ _ _ h.1 x hm
        simp only [Bool.and_eq_true, Bool.not_eq_true'] at this
        refine Bool.eq_false_iff.mpr (fun hc => ?_)
        have hxi : x.id = i := (idEqual_iff _ _).mp hc
        rw [hxi] at this
        rw [this.2] at hbit
        exact Bool.false_ne_true hbit
      · exact ihr _ _ h.2 x hm
    · rw [if_neg hbit] at hx
      simp only [contactsOf, List.mem_append] at hx
      rcases hx with hm | hm
      · exact ihl _ _ h.1 x hm
      · have := nodeWF_implies_pred _ _ _ h.2 x hm
        simp only [Bool.and_eq_true] at this
        refine Bool.eq_false_iff.mpr (fun hc => ?_)
        have hxi : x.id = i := (idEqual_iff _ _).mp hc
        rw [hxi] at this
        exact hbit this.2

theorem mem_aset {α : Type _} (l : List (String × α)) (k : String) (v : α) :
    ∀ p ∈ aset l k v, p.1 = k ∨ p ∈ l := by
  induction l with
  | nil =>
    intro p hp
    simp only [aset, List.mem_singleton] at hp
    exact Or.inl (hp ▸ rfl)
  | cons q l ih =>
    intro p hp
    simp only [aset] at hp
    by_cases hk : (q.1 == k) = true
    · rw [if_pos hk] at hp
      rcases List.mem_cons.mp hp with h | h
      · exact Or.inl (h ▸ (by simpa using hk))
      · exact Or.inr (List.mem_cons_of_mem _ h)
    · rw [if_neg hk] at hp
      rcases List.mem_cons.mp hp with h | h
      · exact Or.inr (h ▸ List.mem_cons_self _ _)
      · rcases ih p h with h2 | h2
        · exact Or.inl h2
        · exact Or.inr (List.mem_cons_of_mem _ h2)

theorem mem_aerase {α : Type _} (l : List (String × α)) (k : String) :
    ∀ p ∈ aerase l k, p ∈ l := by
  induction l with
  | nil => simp [aerase]
  | cons q l ih =>
    intro p hp
    simp only [aerase] at hp
    by_cases hk : (q.1 == k) = true
    · rw [if_pos hk] at hp
      exact List.mem_cons_of_mem _ hp
    · rw [if_neg hk] at hp
      rcases List.mem_cons.mp hp with h | h
      · exact h ▸ List.mem_cons_self _ _
      · exact List.mem_cons_of_mem _ (ih p h)

theorem keysNoDup_aset {α : Type _} (l : List (String × α)) (k : String) (v : α)
    (h : keysNoDup l = true) : keysNoDup (aset l k v) = true := by
  induction l with
  | nil => simp [aset, keysNoDup]
  | cons q l ih =>
    rcases q with ⟨k', w⟩
    simp only [keysNoDup, Bool.and_eq_true, List.all_eq_true] at h
    simp only [aset]
    by_cases hk : (k' == k) = true
    · rw [if_pos hk]
      simp only [keysNoDup, Bool.and_eq_true, List.all_eq_true]
      exact ⟨h.1, h.2⟩
    · rw [if_neg hk]
      simp only [keysNoDup, Bool.and_eq_true, List.all_eq_true]
      refine ⟨?_, ih h.2⟩
      intro p hp
      rcases mem_aset l k v p hp with h2 | h2
      · subst h2
        simp only [Bool.not_eq_true']
        rw [beq_eq_false_iff_ne]
        intro hc
        exact hk (by simp [hc])
      · exact h.1 p h2

theorem keysNoDup_aerase {α : Type _} (l : List (String × α)) (k : String)
    (h : keysNoDup l = true) : keysNoDup (aerase l k) = true := by
  induction l with
  | nil => simp [aerase, keysNoDup]
  | cons q l ih =>
    rcases q with ⟨k', w⟩
    simp only [keysNoDup, Bool.and_eq_true, List.all_eq_true] at h
    simp only [aerase]
    by_cases hk : (k' == k) = true
    · rw [if_pos hk]
      exact h.2
    · rw [if_neg hk]
      simp only [keysNoDup, Bool.and_eq_true, List.all_eq_true]
      exact ⟨fun p hp => h.1 p (mem_aerase l k p hp), ih h.2⟩

theorem alookup_aset_self {α : Type _} (l : List (String × α)) (k : String) (v : α) :
    alookup (aset l k v) k = some v := by
  induction l with
  | nil => simp [aset, alookup]
  | cons q l ih =>
    simp only [aset]
    by_cases hk : (q.1 == k) = true
    · rw [if_pos hk]
      simp only [alookup]
      rw [if_pos hk]
    · rw [if_neg hk]
      simp only [alookup]
      rw [if_neg hk]
      exact ih

theorem rtRemoveId_localId (t : RoutingTable) (i : Id) :
    (rtRemoveId t i).1.localId = t.localId := rfl

theorem rtRemoveId_bucketSize (t : RoutingTable) (i : Id) :
    (rtRemoveId t i).1.bucketSize = t.bucketSize := rfl

theorem rtRemoveId_endpoints (t : RoutingTable) (i : Id) :
    (rtRemoveId t i).1.endpoints = t.endpoints := rfl

theorem addRemoveEndpoint_localId (t : RoutingTable) (ep : String) (id? : Option Id) :
    (addRemoveEndpoint t ep id?).localId = t.localId := by
  unfold addRemoveEndpoint
  cases alookup t.endpoints ep <;> cases id? <;> simp only [Option.all_some, Option.all_none] <;>
    first
      | rfl
      | (split <;> rfl)

theorem addRemoveEndpoint_bucketSize (t : RoutingTable) (ep : String) (id? : Option Id) :
    (addRemoveEndpoint t ep id?).bucketSize = t.bucketSize := by
  unfold addRemoveEndpoint
  cases alookup t.endpoints ep <;> cases id? <;> simp only [Option.all_some, Option.all_none] <;>
    first
      | rfl
      | (split <;> rfl)

/-- The root of the table after `_addRemoveEndpoint` is either unchanged
or the result of removing the old id. -/
theorem addRemoveEndpoint_root (t : RoutingTable) (ep : String) (id? : Option Id) :
    (addRemoveEndpoint t ep id?).root = t.root ∨
    ∃ i, (addRemoveEndpoint t ep id?).root = (removeInNode t.root i 0).1 := by
  unfold addRemoveEndpoint
  cases alookup t.endpoints ep with
  | none =>
    cases id? <;> simp
  | some oldId =>
    cases id? with
    | none =>
      simp only [Option.all_none]
      exact Or.inr ⟨oldId, rfl⟩
    | some i =>
      simp only [Option.all_some]
      split
      · exact Or.inr ⟨oldId, rfl⟩
      · exact Or.inl rfl

theorem mem_contactsOf_addRemoveEndpoint (t : RoutingTable) (ep : String) (id? : Option Id) :
    ∀ x ∈ contactsOf (addRemoveEndpoint t ep id?).root, x ∈ contactsOf t.root := by
  intro x hx
  rcases addRemoveEndpoint_root t ep id? with h | ⟨i, h⟩
  · rwa [h] at hx
  · rw [h] at hx
    exact mem_contactsOf_removeInNode i _ _ x hx

theorem nodeWF_addRemoveEndpoint (t : RoutingTable) (ep : String) (id? : Option Id)
    (P : Id → Bool) (h : nodeWF t.root 0 P = true) :
    nodeWF (addRemoveEndpoint t ep id?).root 0 P = true := by
  rcases addRemoveEndpoint_root t ep id? with h2 | ⟨i, h2⟩
  · rwa [h2]
  · rw [h2]
    exact nodeWF_removeInNode i _ _ _ h

theorem keysNoDup_addRemoveEndpoint (t : RoutingTable) (ep : String) (id? : Option Id)
    (h : keysNoDup t.endpoints = true) :
    keysNoDup (addRemoveEndpoint t ep id?).endpoints = true := by
  unfold addRemoveEndpoint
  cases alookup t.endpoints ep with
  | none =>
    cases id? with
    | none => exact h
    | some i => exact keysNoDup_aset _ _ _ h
  | some oldId =>
    cases id? with
    | none =>
      simp only [Option.all_none, if_pos]
      rw [rtRemoveId_endpoints]
      exact keysNoDup_aerase _ _ h
    | some i =>
      simp only [Option.all_some]
      split
      · rw [rtRemoveId_endpoints]
        exact keysNoDup_aset _ _ _ (keysNoDup_aerase _ _ h)
      · exact keysNoDup_aset _ _ _ h

theorem capAll_storeInNode (lid : Id) (ks : Nat) (c : Contact) :
    ∀ (n : RNode) (d : Nat) (allow : Bool) (pfx : String),
    allBuckets (fun b => b.capacity == ks) n = true →
    allBuckets (fun b => b.capacity == ks) (storeInNode lid ks c n d allow pfx).1 = true := by
  intro n
  induction n with
  | leaf b =>
    intro d allow pfx h
    simp only [allBuckets] at h
    simp only [storeInNode]
    have hcap : ((bucketStore b c).1.capacity == ks) = true := by
      rw [bucketStore_capacity]; exact h
    by_cases hok : (bucketStore b c).2 = true
    · rw [if_pos hok]; exact hcap
    · rw [if_neg hok]
      by_cases hstop : (!(allow && (idAt c.id d == idAt lid d)) || d + 1 == BIT_SIZE) = true
      · rw [if_pos hstop]; exact hcap
      · rw [if_neg hstop]
        have hsplit := bucketSplitGo_capacity (bucketStore b c).1.store d
          ⟨ks, pfx ++ "0", [], none⟩ ⟨ks, pfx ++ "1", [], none⟩
        by_cases hbit : idAt c.id d = true
        · rw [if_pos hbit]
          simp only [allBuckets, Bool.and_eq_true]
          constructor
          · rw [hsplit.1]; simp
          · rw [bucketStore_capacity, hsplit.2]; simp
        · rw [if_neg hbit]
          simp only [allBuckets, Bool.and_eq_true]
          constructor
          · rw [bucketStore_capacity, hsplit.1]; simp
          · rw [hsplit.2]; simp
  | branch l r ihl ihr =>
    intro d allow pfx h
    simp only [allBuckets, Bool.and_eq_true] at h
    simp only [storeInNode]
    by_cases hbit : idAt c.id d = true
    · rw [if_pos hbit]
      simp only [allBuckets, Bool.and_eq_true]
      exact ⟨h.1, ihr _ _ _ h.2⟩
    · rw [if_neg hbit]
      simp only [allBuckets, Bool.and_eq_true]
      exact ⟨ihl _ _ _ h.1, h.2⟩

theorem capAll_removeInNode (ks : Nat) (i : Id) :
    ∀ (n : RNode) (d : Nat),
    allBuckets (fun b => b.capacity == ks) n = true →
    allBuckets (fun b => b.capacity == ks) (removeInNode n i d).1 = true := by
  intro n
  induction n with
  | leaf b =>
    intro d h
    simpa [removeInNode, allBuckets] using h
  | branch l r ihl ihr =>
    intro d h
    simp only [allBuckets, Bool.and_eq_true] at h
    simp only [removeInNode]
    by_cases hbit : idAt i d = true
    · rw [if_pos hbit]
      simp only [allBuckets, Bool.and_eq_true]
      exact ⟨h.1, ihr _ h.2⟩
    · rw [if_neg hbit]
      simp only [allBuckets, Bool.and_eq_true]
      exact ⟨ihl _ h.1, h.2⟩

theorem capAll_addRemoveEndpoint (t : RoutingTable) (ep : String) (id? : Option Id)
    (ks : Nat) (h : allBuckets (fun b => b.capacity == ks) t.root = true) :
    allBuckets (fun b => b.capacity == ks) (addRemoveEndpoint t ep id?).root = true := by
  rcases addRemoveEndpoint_root t ep id? with h2 | ⟨i, h2⟩
  · rwa [h2]
  · rw [h2]
    exact capAll_removeInNode ks i _ _ h

theorem rtStore_localId (t : RoutingTable) (c : Contact) :
    (rtStore t c).1.localId = t.localId := by
  unfold rtStore
  by_cases heq : idEqual c.id t.localId = true
  · rw [if_pos heq]
  · rw [if_neg heq]
    simp only
    split
    · rw [addRemoveEndpoint_localId]
    · rfl

theorem rtStore_bucketSize (t : RoutingTable) (c : Contact) :
    (rtStore t c).1.bucketSize = t.bucketSize := by
  unfold rtStore
  by_cases heq : idEqual c.id t.localId = true
  · rw [if_pos heq]
  · rw [if_neg heq]
    simp only
    split
    · rw [addRemoveEndpoint_bucketSize]
    · rfl

theorem rtRemove_localId (t : RoutingTable) (c : Contact) :
    (rtRemove t c).1.localId = t.localId := by
  unfold rtRemove
  simp only
  split
  · rfl
  · rw [addRemoveEndpoint_localId, rtRemoveId_localId]

theorem rtRemove_bucketSize (t : RoutingTable) (c : Contact) :
    (rtRemove t c).1.bucketSize = t.bucketSize := by
  unfold rtRemove
  simp only
  split
  · rfl
  · rw [addRemoveEndpoint_bucketSize, rtRemoveId_bucketSize]

theorem mem_contactsOf_rtStore (t : RoutingTable) (c : Contact) :
    ∀ x ∈ contactsOf (rtStore t c).1.root, x ∈ contactsOf t.root ∨ x = c := by
  intro x hx
  unfold rtStore at hx
  by_cases heq : idEqual c.id t.localId = true
  · rw [if_pos heq] at hx
    exact Or.inl hx
  · rw [if_neg heq] at hx
    simp only at hx
    split at hx
    · have hx2 := mem_contactsOf_addRemoveEndpoint _ _ _ x hx
      exact mem_contactsOf_storeInNode t.localId t.bucketSize c t.root 0 true "" x hx2
    · exact mem_contactsOf_storeInNode t.localId t.bucketSize c t.root 0 true "" x hx

theorem mem_contactsOf_rtRemove (t : RoutingTable) (c : Contact) :
    ∀ x ∈ contactsOf (rtRemove t c).1.root, x ∈ contactsOf t.root := by
  intro x hx
  unfold rtRemove at hx
  simp only at hx
  split at hx
  · exact mem_contactsOf_removeInNode c.id _ _ x hx
  · have hx2 := mem_contactsOf_addRemoveEndpoint _ _ _ x hx
    exact mem_contactsOf_removeInNode c.id _ _ x hx2

theorem rtWF_rtStore (t : RoutingTable) (c : Contact) (h : rtWF t = true) :
    rtWF (rtStore t c).1 = true := by
  unfold rtWF at h ⊢
  unfold rtStore
  by_cases heq : idEqual c.id t.localId = true
  · rw [if_pos heq]; exact h
  · rw [if_neg heq]
    simp only
    have hstep : nodeWF (storeInNode t.localId t.bucketSize c t.root 0 true "").1
        0 (fun _ => true) = true :=
      nodeWF_storeInNode t.localId t.bucketSize c t.root 0 true "" _ h rfl
    split
    · exact nodeWF_addRemoveEndpoint _ _ _ _ hstep
    · exact hstep

theorem rtWF_rtRemove (t : RoutingTable) (c : Contact) (h : rtWF t = true) :
    rtWF (rtRemove t c).1 = true := by
  unfold rtWF at h ⊢
  unfold rtRemove
  simp only
  have hstep : nodeWF (removeInNode t.root c.id 0).1 0 (fun _ => true) = true :=
    nodeWF_removeInNode c.id _ _ _ h
  split
  · exact hstep
  · exact nodeWF_addRemoveEndpoint _ _ _ _ hstep

theorem keysNoDup_rtStore (t : RoutingTable) (c : Contact)
    (h : keysNoDup t.endpoints = true) : keysNoDup (rtStore t c).1.endpoints = true := by
  unfold rtStore
  by_cases heq : idEqual c.id t.localId = true
  · rw [if_pos heq]; exact h
  · rw [if_neg heq]
    simp only
    split
    · exact keysNoDup_addRemoveEndpoint _ _ _ h
    · exact h

theorem keysNoDup_rtRemove (t : RoutingTable) (c : Contact)
    (h : keysNoDup t.endpoints = true) : keysNoDup (rtRemove t c).1.endpoints = true := by
  unfold rtRemove
  simp only
  split
  · exact h
  · exact keysNoDup_addRemoveEndpoint _ _ _ (by rwa [rtRemoveId_endpoints])

theorem capsEq_rtStore (t : RoutingTable) (c : Contact) (h : capsEq t = true) :
    capsEq (rtStore t c).1 = true := by
  unfold capsEq at h ⊢
  rw [rtStore_bucketSize]
  unfold rtStore
  by_cases heq : idEqual c.id t.localId = true
  · rw [if_pos heq]; exact h
  · rw [if_neg heq]
    simp only
    have hstep := capAll_storeInNode t.localId t.bucketSize c t.root 0 true "" h
    split
    · exact capAll_addRemoveEndpoint _ _ _ _ hstep
    · exact hstep

theorem capsEq_rtRemove (t : RoutingTable) (c : Contact) (h : capsEq t = true) :
    capsEq (rtRemove t c).1 = true := by
  unfold capsEq at h ⊢
  rw [rtRemove_bucketSize]
  unfold rtRemove
  simp only
  have hstep := capAll_removeInNode t.bucketSize c.id t.root 0 h
  split
  · exact hstep
  · exact capAll_addRemoveEndpoint _ _ _ _ hstep

/-- The structural invariants hold at every reachable routing-table
state: the tree is well-formed, endpoint keys are unique, and every
bucket carries the configured (positive) capacity. -/
theorem reachable_inv (t : RoutingTable) (h : Reachable t) :
    rtWF t = true ∧ keysNoDup t.endpoints = true ∧ capsEq t = true ∧ 0 < t.bucketSize := by
  induction h with
  | init localId bucketSize hpos =>
    refine ⟨?_, ?_, ?_, hpos⟩
    · rfl
    · rfl
    · simp [capsEq, RoutingTable.init, allBuckets]
  | store t c _ ih =>
    refine ⟨rtWF_rtStore t c ih.1, keysNoDup_rtStore t c ih.2.1,
      capsEq_rtStore t c ih.2.2.1, ?_⟩
    rw [rtStore_bucketSize]
    exact ih.2.2.2
  | remove t c _ ih =>
    refine ⟨rtWF_rtRemove t c ih.1, keysNoDup_rtRemove t c ih.2.1,
      capsEq_rtRemove t c ih.2.2.1, ?_⟩
    rw [rtRemove_bucketSize]
    exact ih.2.2.2

/-- At every reachable state, no stored contact carries the local id. -/
theorem reachable_no_local (t : RoutingTable) (h : Reachable t) :
    ∀ x ∈ contactsOf t.root, idEqual x.id t.localId = false := by
  induction h with
  | init localId bucketSize hpos =>
    intro x hx
    simp [RoutingTable.init, contactsOf] at hx
  | store t c _ ih =>
    intro x hx
    rw [rtStore_localId]
    by_cases heq : idEqual c.id t.localId = true
    · have : rtStore t c = (t, none) := by
        unfold rtStore; rw [if_pos heq]
      rw [this] at hx
      exact ih x hx
    · rcases mem_contactsOf_rtStore t c x hx with hm | hm
      · exact ih x hm
      · subst hm
        exact Bool.eq_false_iff.mpr heq
  | remove t c _ ih =>
    intro x hx
    rw [rtRemove_localId]
    exact ih x (mem_contactsOf_rtRemove t c x hx)

/-- With positive-capacity buckets, a rejected store always reports an
eviction candidate (the full bucket is nonempty, so it has an oldest). -/
theorem storeInNode_reg_false (lid : Id) (ks : Nat) (c : Contact) (hpos : 0 < ks) :
    ∀ (n : RNode) (d : Nat) (allow : Bool) (pfx : String),
    allBuckets (fun b => b.capacity == ks) n = true →
    (storeInNode lid ks c n d allow pfx).2.2 = false →
    (storeInNode lid ks c n d allow pfx).2.1.isSome = true := by
  intro n
  induction n with
  | leaf b =>
    intro d allow pfx hcap hreg
    simp only [allBuckets, beq_iff_eq] at hcap
    simp only [storeInNode] at hreg ⊢
    by_cases hok : (bucketStore b c).2 = true
    · rw [if_pos hok] at hreg
      simp at hreg
    · rw [if_neg hok] at hreg ⊢
      by_cases hstop : (!(allow && (idAt c.id d == idAt lid d)) || d + 1 == BIT_SIZE) = true
      · rw [if_pos hstop]
        have hfull : ((removeById b.store c.id).1.length == b.capacity) = true := by
          by_contra hc
          have : (bucketStore b c).2 = true := by
            simp only [bucketStore]
            rw [if_neg (by simpa using hc)]
          exact hok this
        have hlen : (removeById b.store c.id).1.length = b.capacity := by simpa using hfull
        have hne : (bucketStore b c).1.store ≠ [] := by
          have hstoreq : (bucketStore b c).1.store = (removeById b.store c.id).1 := by
            simp only [bucketStore]
            rw [if_pos hfull]
          rw [hstoreq]
          intro hc
          rw [hc] at hlen
          simp at hlen
          omega
        simp only [bucketOldest]
        cases hcase : (bucketStore b c).1.store with
        | nil => exact absurd hcase hne
        | cons y ys => simp [List.head?]
      · rw [if_neg hstop] at hreg
        by_cases hbit : idAt c.id d = true
        · rw [if_pos hbit] at hreg
          simp at hreg
        · rw [if_neg hbit] at hreg
          simp at hreg
  | branch l r ihl ihr =>
    intro d allow pfx hcap hreg
    simp only [allBuckets, Bool.and_eq_true] at hcap
    simp only [storeInNode] at hreg ⊢
    by_cases hbit : idAt c.id d = true
    · rw [if_pos hbit] at hreg ⊢
      exact ihr _ _ _ hcap.2 hreg
    · rw [if_neg hbit] at hreg ⊢
      exact ihl _ _ _ hcap.1 hreg

/-- Endpoint rebinding: when storing `⟨Y, E⟩` is accepted (the call
returns no eviction candidate) and the endpoint `E` previously mapped
to a different id `X`, the resulting table holds no contact with id `X`
and maps `E` to `Y`. -/
theorem rtStore_rebind (t : RoutingTable) (Y : Id) (E : String) (X : Id)
    (hwf : rtWF t = true) (hcaps : capsEq t = true) (hpos : 0 < t.bucketSize)
    (hlk : alookup t.endpoints E = some X)
    (hne : idEqual X Y = false)
    (hnl : idEqual Y t.localId = false)
    (hacc : (rtStore t ⟨Y, E⟩).2 = none) :
    (∀ x ∈ contactsOf (rtStore t ⟨Y, E⟩).1.root, idEqual x.id X = false) ∧
    alookup (rtStore t ⟨Y, E⟩).1.endpoints E = some Y := by
  have hni : idEqual (Contact.mk Y E).id t.localId = true → False := by
    intro hc
    rw [hnl] at hc
    exact Bool.false_ne_true hc
  unfold rtStore at hacc ⊢
  rw [if_neg (by
    intro hc
    exact hni hc)] at hacc ⊢
  simp only at hacc ⊢
  by_cases hreg : (storeInNode t.localId t.bucketSize ⟨Y, E⟩ t.root 0 true "").2.2 = true
  · rw [if_pos hreg] at hacc ⊢
    have hstep : nodeWF (storeInNode t.localId t.bucketSize ⟨Y, E⟩ t.root 0 true "").1
        0 (fun _ => true) = true :=
      nodeWF_storeInNode t.localId t.bucketSize ⟨Y, E⟩ t.root 0 true "" _ hwf rfl
    set t1 : RoutingTable :=
      { t with root := (storeInNode t.localId t.bucketSize ⟨Y, E⟩ t.root 0 true "").1 }
      with ht1
    have ht1ep : t1.endpoints = t.endpoints := rfl
    unfold addRemoveEndpoint
    rw [ht1ep, hlk]
    simp only [Option.all_some]
    rw [if_pos (by rw [hne]; rfl)]
    constructor
    · intro x hx
      exact removeInNode_no_id X _ _ _ hstep x hx
    · exact alookup_aset_self _ _ _
  · rw [if_neg hreg] at hacc ⊢
    exfalso
    have := storeInNode_reg_false t.localId t.bucketSize ⟨Y, E⟩ hpos t.root 0 true ""
      (by unfold capsEq at hcaps; exact hcaps)
      (by simpa using hreg)
    simp only at hacc
    rw [hacc] at this
    simp at this

/-!
## Lookup shortlist and lookup engine

The lookup module (three revisions of `lookup.js` are in the sources;
the one taking `(id, idkey, subkey, seeds, opts)` is the copy used by
the DHT module embedded below).  Its shortlist type `lookup-list.js` is
not among the provided sources, so it is modelled from spec §4.4.
-/

/-- Modelled from the spec: `lib/lookup-list.js` is missing from the
sources.  Spec §4.4 / §3: a bounded list of size `k`, sorted ascending
by XOR distance to a fixed target, no duplicate ids, with an
"already queried" flag per entry. -/
structure LookupList where
  target : Id
  size : Nat
  items : List (Contact × Bool)
deriving DecidableEq, Repr

/-- Modelled from the spec: fresh empty shortlist. -/
def llInit (target : Id) (size : Nat) : LookupList := ⟨target, size, []⟩

/-- Modelled from the spec: insertion at the position preserving
ascending distance (stable: equal distances keep the earlier entry
first). -/
def llInsertSorted (target : Id) (c : Contact) :
    List (Contact × Bool) → List (Contact × Bool)
  | [] => [(c, false)]
  | (d, q) :: l =>
    if distNat target c.id < distNat target d.id then (c, false) :: (d, q) :: l
    else (d, q) :: llInsertSorted target c l

/-- Modelled from the spec: `insert` is a no-op when the id is already
present; otherwise insert sorted and drop the farthest entry when the
length would exceed `k`. -/
def llInsert (l : LookupList) (c : Contact) : LookupList :=
  if l.items.any (fun p => idEqual p.1.id c.id) then l
  else { l with items := (llInsertSorted l.target c l.items).take l.size }

/-- Modelled from the spec: `insert_many`. -/
def llInsertMany (l : LookupList) (cs : List Contact) : LookupList :=
  cs.foldl llInsert l

def llNextGo : List (Contact × Bool) → List (Contact × Bool) × Option Contact
  | [] => ([], none)
  | (c, q) :: l =>
    if q then
      let r := llNextGo l
      ((c, q) :: r.1, r.2)
    else ((c, true) :: l, some c)

/-- Modelled from the spec: `next()` returns the closest not-yet-queried
contact, marking it queried. -/
def llNext (l : LookupList) : LookupList × Option Contact :=
  let r := llNextGo l.items
  ({ l with items := r.1 }, r.2)

/-- Modelled from the spec: `remove(contact)` deletes by id. -/
def llRemove (l : LookupList) (c : Contact) : LookupList :=
  { l with items := l.items.filter (fun p => !(idEqual p.1.id c.id)) }

/-- Modelled from the spec: `get_contacts()` in distance order. -/
def llGetContacts (l : LookupList) : List Contact := l.items.map Prod.fst

/-- The recursion of `RoutingTable.prototype._find`: at a leaf, insert
the bucket's contacts; at an internal node, descend first into the side
matching the id bit and visit the sibling only while fewer than `count`
contacts were gathered. -/
def rtFindGo (id : Id) (count : Nat) : RNode → Nat → LookupList → LookupList
  | .leaf b, _, list => llInsertMany list (bucketObtain b none)
  | .branch l r, rank, list =>
    if idAt id rank then
      let list2 := rtFindGo id count r (rank + 1) list
      if list2.items.length < count then rtFindGo id count l (rank + 1) list2 else list2
    else
      let list2 := rtFindGo id count l (rank + 1) list
      if list2.items.length < count then rtFindGo id count r (rank + 1) list2 else list2

/-- `RoutingTable.prototype.find`: gather the `count` closest known
contacts (`count` defaults to the bucket size). -/
def rtFind (t : RoutingTable) (id : Id) (count : Option Nat) : List Contact :=
  let cnt := count.getD t.bucketSize
  llGetContacts (rtFindGo id cnt t.root 0 (llInit id cnt))

/-!
### The all-subkey value merge of the lookup engine

`Lookup.prototype._forContact` (the `(id, idkey, subkey, ...)` revision
of `lookup.js`), value branch in all-subkey mode: for each subkey `k`
of a response from `contact`, a previously recorded source wins unless
the new contact is strictly closer to the target
(`cmp = targetId.compareDistance(srccontact[k].id, contact.id)`,
skip when `cmp >= 0`).
-/

/-- The per-lookup accumulators `_srccontact`, `_value` and
`_valueTimeout` of `lookup.js`. -/
structure MergeState (V T : Type _) where
  srccontact : List (String × Contact)
  value : List (String × V)
  valueTimeout : List (String × Option T)

/-- One iteration of the `for(var k in value)` loop of `_forContact` in
all-subkey mode. -/
def mergeValueStep {V T : Type _} (targetId : Id) (contact : Contact)
    (tmo : String → Option T) (st : MergeState V T) (k : String) (v : V) :
    MergeState V T :=
  match alookup st.srccontact k with
  | some p =>
    if compareDistance targetId p.id contact.id ≥ 0 then st
    else ⟨aset st.srccontact k contact, aset st.value k v,
          aset st.valueTimeout k (tmo k)⟩
  | none => ⟨aset st.srccontact k contact, aset st.value k v,
             aset st.valueTimeout k (tmo k)⟩

/-- The whole `for(var k in value)` loop over the key/value pairs of one
response. -/
def mergeValues {V T : Type _} (targetId : Id) (contact : Contact)
    (kvs : List (String × V)) (tmo : String → Option T) (st : MergeState V T) :
    MergeState V T :=
  kvs.foldl (fun st p => mergeValueStep targetId contact tmo st p.1 p.2) st

theorem alookup_aset_ne {α : Type _} (l : List (String × α)) (k k' : String) (v : α)
    (h : k' ≠ k) : alookup (aset l k' v) k = alookup l k := by
  induction l with
  | nil =>
    simp only [aset, alookup]
    rw [if_neg (by simpa using h)]
  | cons q l ih =>
    simp only [aset]
    by_cases hk : (q.1 == k') = true
    · rw [if_pos hk]
      simp only [alookup]
      have hq : (q.1 == k) = false := by
        have : q.1 = k' := by simpa using hk
        rw [this]
        simpa using h
      rw [if_neg (by simp [hq]), if_neg (by simp [hq])]
    · rw [if_neg hk]
      simp only [alookup]
      by_cases hq : (q.1 == k) = true
      · rw [if_pos hq, if_pos hq]
      · rw [if_neg hq, if_neg hq]
        exact ih

theorem mergeValueStep_none {V T : Type _} (targetId : Id) (contact : Contact)
    (tmo : String → Option T) (st : MergeState V T) (k : String) (v : V)
    (h : alookup st.srccontact k = none) :
    mergeValueStep targetId contact tmo st k v
      = ⟨aset st.srccontact k contact, aset st.value k v,
         aset st.valueTimeout k (tmo k)⟩ := by
  unfold mergeValueStep
  rw [h]

theorem mergeValueStep_keep {V T : Type _} (targetId : Id) (contact : Contact)
    (tmo : String → Option T) (st : MergeState V T) (k : String) (v : V) (p : Contact)
    (h : alookup st.srccontact k = some p)
    (hcmp : compareDistance targetId p.id contact.id ≥ 0) :
    mergeValueStep targetId contact tmo st k v = st := by
  unfold mergeValueStep
  rw [h]
  show (if compareDistance targetId p.id contact.id ≥ 0 then st
        else ⟨aset st.srccontact k contact, aset st.value k v,
              aset st.valueTimeout k (tmo k)⟩) = st
  rw [if_pos hcmp]

theorem mergeValueStep_replace {V T : Type _} (targetId : Id) (contact : Contact)
    (tmo : String → Option T) (st : MergeState V T) (k : String) (v : V) (p : Contact)
    (h : alookup st.srccontact k = some p)
    (hcmp : ¬ compareDistance targetId p.id contact.id ≥ 0) :
    mergeValueStep targetId contact tmo st k v
      = ⟨aset st.srccontact k contact, aset st.value k v,
         aset st.valueTimeout k (tmo k)⟩ := by
  unfold mergeValueStep
  rw [h]
  show (if compareDistance targetId p.id contact.id ≥ 0 then st
        else ⟨aset st.srccontact k contact, aset st.value k v,
              aset st.valueTimeout k (tmo k)⟩)
      = (⟨aset st.srccontact k contact, aset st.value k v,
          aset st.valueTimeout k (tmo k)⟩ : MergeState V T)
  rw [if_neg hcmp]

theorem mergeValues_untouched {V T : Type _} (targetId : Id) (contact : Contact)
    (tmo : String → Option T) :
    ∀ (kvs : List (String × V)) (st : MergeState V T) (s : String),
    (∀ k ∈ kvs.map Prod.fst, k ≠ s) →
    alookup (mergeValues targetId contact kvs tmo st).srccontact s
        = alookup st.srccontact s ∧
    alookup (mergeValues targetId contact kvs tmo st).value s
        = alookup st.value s := by
  intro kvs
  induction kvs with
  | nil => exact fun st s _ => ⟨rfl, rfl⟩
  | cons kv rest ih =>
    intro st s hk
    have hk0 : kv.1 ≠ s := hk kv.1 (by simp)
    have hrest : ∀ k ∈ rest.map Prod.fst, k ≠ s :=
      fun k hm => hk k (by simp [hm])
    have hstep : alookup (mergeValueStep targetId contact tmo st kv.1 kv.2).srccontact s
          = alookup st.srccontact s ∧
        alookup (mergeValueStep targetId contact tmo st kv.1 kv.2).value s
          = alookup st.value s := by
      cases halk : alookup st.srccontact kv.1 with
      | none =>
        rw [mergeValueStep_none targetId contact tmo st kv.1 kv.2 halk]
        exact ⟨alookup_aset_ne _ _ _ _ hk0, alookup_aset_ne _ _ _ _ hk0⟩
      | some p =>
        by_cases hcmp : compareDistance targetId p.id contact.id ≥ 0
        · rw [mergeValueStep_keep targetId contact tmo st kv.1 kv.2 p halk hcmp]
          exact ⟨rfl, rfl⟩
        · rw [mergeValueStep_replace targetId contact tmo st kv.1 kv.2 p halk hcmp]
          exact ⟨alookup_aset_ne _ _ _ _ hk0, alookup_aset_ne _ _ _ _ hk0⟩
    have := ih (mergeValueStep targetId contact tmo st kv.1 kv.2) s hrest
    refine ⟨?_, ?_⟩
    · rw [show mergeValues targetId contact (kv :: rest) tmo st
          = mergeValues targetId contact rest tmo
              (mergeValueStep targetId contact tmo st kv.1 kv.2) from rfl]
      rw [this.1, hstep.1]
    · rw [show mergeValues targetId contact (kv :: rest) tmo st
          = mergeValues targetId contact rest tmo
              (mergeValueStep targetId contact tmo st kv.1 kv.2) from rfl]
      rw [this.2, hstep.2]

/-- The all-subkey merge rule at the level of one response: a recorded
source `p` for subkey `s` is replaced by the responding `contact`
exactly when the comparison is strictly negative (the responder is
strictly closer); otherwise entry and source are kept. -/
theorem mergeValues_recorded {V T : Type _} (targetId : Id) (c p : Contact)
    (tmo : String → Option T) :
    ∀ (kvs : List (String × V)) (st : MergeState V T) (s : String) (v : V),
    alookup st.srccontact s = some p →
    (s, v) ∈ kvs →
    (kvs.map Prod.fst).Nodup →
    alookup (mergeValues targetId c kvs tmo st).srccontact s
      = (if compareDistance targetId p.id c.id < 0 then some c else some p) ∧
    alookup (mergeValues targetId c kvs tmo st).value s
      = (if compareDistance targetId p.id c.id < 0 then some v
         else alookup st.value s) := by
  intro kvs
  induction kvs with
  | nil => intro st s v _ hmem _; simp at hmem
  | cons kv rest ih =>
    intro st s v hsrc hmem hnd
    have hnd2 : kv.1 ∉ rest.map Prod.fst ∧ (rest.map Prod.fst).Nodup := by
      rw [List.map_cons] at hnd
      exact List.nodup_cons.mp hnd
    have hnd' : (rest.map Prod.fst).Nodup := hnd2.2
    by_cases hkv : kv = (s, v)
    · subst hkv
      have hnotin : ∀ k ∈ rest.map Prod.fst, k ≠ s := by
        intro k hk hc
        exact hnd2.1 (hc ▸ hk)
      by_cases hcmp : compareDistance targetId p.id c.id ≥ 0
      · have hstep := mergeValueStep_keep targetId c tmo st s v p hsrc hcmp
        have hrest := mergeValues_untouched targetId c tmo rest
          (mergeValueStep targetId c tmo st s v) s hnotin
        rw [hstep] at hrest
        have hif : ¬ compareDistance targetId p.id c.id < 0 := by omega
        constructor
        · rw [show mergeValues targetId c ((s, v) :: rest) tmo st
              = mergeValues targetId c rest tmo
                  (mergeValueStep targetId c tmo st s v) from rfl, hstep]
          rw [hrest.1, hsrc, if_neg hif]
        · rw [show mergeValues targetId c ((s, v) :: rest) tmo st
              = mergeValues targetId c rest tmo
                  (mergeValueStep targetId c tmo st s v) from rfl, hstep]
          rw [hrest.2, if_neg hif]
      · have hstep := mergeValueStep_replace targetId c tmo st s v p hsrc hcmp
        have hrest := mergeValues_untouched targetId c tmo rest
          (mergeValueStep targetId c tmo st s v) s hnotin
        have hif : compareDistance targetId p.id c.id < 0 := by omega
        constructor
        · rw [show mergeValues targetId c ((s, v) :: rest) tmo st
              = mergeValues targetId c rest tmo
                  (mergeValueStep targetId c tmo st s v) from rfl]
          rw [hrest.1, hstep]
          simp only
          rw [alookup_aset_self, if_pos hif]
        · rw [show mergeValues targetId c ((s, v) :: rest) tmo st
              = mergeValues targetId c rest tmo
                  (mergeValueStep targetId c tmo st s v) from rfl]
          rw [hrest.2, hstep]
          simp only
          rw [alookup_aset_self, if_pos hif]
    · have hmem' : (s, v) ∈ rest := by
        rcases List.mem_cons.mp hmem with h | h
        · exact absurd h.symm hkv
        · exact h
      have hks : kv.1 ≠ s := by
        have hsk : s ∈ rest.map Prod.fst := by
          exact List.mem_map.mpr ⟨(s, v), hmem', rfl⟩
        intro hc
        exact hnd2.1 (hc ▸ hsk)
      have hsrc' : alookup (mergeValueStep targetId c tmo st kv.1 kv.2).srccontact s
          = some p := by
        cases halk : alookup st.srccontact kv.1 with
        | none =>
          rw [mergeValueStep_none targetId c tmo st kv.1 kv.2 halk]
          rw [show (⟨aset st.srccontact kv.1 c, aset st.value kv.1 kv.2,
                aset st.valueTimeout kv.1 (tmo kv.1)⟩ : MergeState V T).srccontact
              = aset st.srccontact kv.1 c from rfl]
          rw [alookup_aset_ne _ _ _ _ hks]
          exact hsrc
        | some q =>
          by_cases hcmp : compareDistance targetId q.id c.id ≥ 0
          · rw [mergeValueStep_keep targetId c tmo st kv.1 kv.2 q halk hcmp]
            exact hsrc
          · rw [mergeValueStep_replace targetId c tmo st kv.1 kv.2 q halk hcmp]
            rw [show (⟨aset st.srccontact kv.1 c, aset st.value kv.1 kv.2,
                  aset st.valueTimeout kv.1 (tmo kv.1)⟩ : MergeState V T).srccontact
                = aset st.srccontact kv.1 c from rfl]
            rw [alookup_aset_ne _ _ _ _ hks]
            exact hsrc
      have hval' : alookup (mergeValueStep targetId c tmo st kv.1 kv.2).value s
          = alookup st.value s := by
        cases halk : alookup st.srccontact kv.1 with
        | none =>
          rw [mergeValueStep_none targetId c tmo st kv.1 kv.2 halk]
          exact alookup_aset_ne _ _ _ _ hks
        | some q =>
          by_cases hcmp : compareDistance targetId q.id c.id ≥ 0
          · rw [mergeValueStep_keep targetId c tmo st kv.1 kv.2 q halk hcmp]
          · rw [mergeValueStep_replace targetId c tmo st kv.1 kv.2 q halk hcmp]
            exact alookup_aset_ne _ _ _ _ hks
      have := ih (mergeValueStep targetId c tmo st kv.1 kv.2) s v hsrc' hmem' hnd'
      constructor
      · rw [show mergeValues targetId c (kv :: rest) tmo st
            = mergeValues targetId c rest tmo
                (mergeValueStep targetId c tmo st kv.1 kv.2) from rfl]
        exact this.1
      · rw [show mergeValues targetId c (kv :: rest) tmo st
            = mergeValues targetId c rest tmo
                (mergeValueStep targetId c tmo st kv.1 kv.2) from rfl]
        rw [this.2, hval']

/-!
## The DHT node's cache

The millisecond-variant DHT module (`dht.js`): `_storeToCache`,
`_expireCache`, `_findFromCache`.  Clock values and millisecond counts
are integers.  `Math.exp` is a host floating-point primitive, so the
expiration pass is parameterized by the function `mexp` standing for it
(the theorems below hold for every `mexp`).

One JavaScript subtlety is load-bearing here and is modelled exactly.
In `_storeToCache`, `now` is a `Date` object, so `now + expireTimeout`
is evaluated with the `+` operator's default `ToPrimitive` hint, under
which a `Date` converts to its STRING form: the stored `expire` field
is the concatenation of the date string with the decimal rendering of
the timeout (for example
`"Thu Jan 01 1970 00:00:00 GMT+0000 (Coordinated Universal Time)1000"`),
never a number.  Such a string is non-empty (truthy), and `ToNumber` of
it is `NaN` (it starts with a weekday name, not a numeric literal), so
in `_expireCache` the arithmetic `expire - expireTime` produces `NaN`
and every comparison against `now` is false: entries stored through
`_storeToCache` are never deleted by the pass.  The model keeps the
concatenation's two components (`ExpireStr`) and evaluates the pass
through a JS-number domain with `NaN` (`JsNum`).
-/

/-- `Id.fromHex`: a zeroed 20-byte buffer overwritten from the start
with the decoded hex pairs (decoding stops at the first non-hex pair,
as `Buffer.write` does). -/
def hexDigit (c : Char) : Option Nat :=
  if '0' ≤ c ∧ c ≤ '9' then some (c.toNat - '0'.toNat)
  else if 'a' ≤ c ∧ c ≤ 'f' then some (c.toNat - 'a'.toNat + 10)
  else if 'A' ≤ c ∧ c ≤ 'F' then some (c.toNat - 'A'.toNat + 10)
  else none

def hexPairs : List Char → List Nat
  | a :: b :: rest =>
    (match hexDigit a, hexDigit b with
     | some x, some y => (16 * x + y) :: hexPairs rest
     | _, _ => [])
  | _ => []

def idFromHex (s : String) : Id :=
  let bs := (hexPairs s.data).take ID_SIZE
  bs ++ List.replicate (ID_SIZE - bs.length) 0

/-- `Id.prototype.toString` (hex rendering, lowercase). -/
def hexChar (n : Nat) : Char :=
  if n < 10 then Char.ofNat (48 + n) else Char.ofNat (97 + n - 10)

def idToHex (a : Id) : String :=
  ⟨(a.map (fun b => [hexChar (b / 16), hexChar (b % 16)])).flatten⟩

/-- A JS number as the expiration pass observes it: a numeric value or
`NaN`. -/
inductive JsNum where
  | num (x : ℚ)
  | nan
deriving DecidableEq, Repr

/-- JS `-` on numbers: `NaN` is absorbing. -/
def jsSub : JsNum → JsNum → JsNum
  | .num a, .num b => .num (a - b)
  | _, _ => .nan

/-- JS `+` on numbers: `NaN` is absorbing. -/
def jsAdd : JsNum → JsNum → JsNum
  | .num a, .num b => .num (a + b)
  | _, _ => .nan

/-- JS `*` on numbers: `NaN` is absorbing. -/
def jsMul : JsNum → JsNum → JsNum
  | .num a, .num b => .num (a * b)
  | _, _ => .nan

/-- JS `<` on numbers: every comparison involving `NaN` is false. -/
def jsLt : JsNum → JsNum → Bool
  | .num a, .num b => a < b
  | _, _ => false

/-- The string `now + expireTimeout` stored by `_storeToCache` when the
timeout is truthy: `now` is a `Date`, so `+` concatenates the date's
string form with the timeout's decimal rendering.  Represented by the
two concatenated components. -/
structure ExpireStr where
  dateMs : ℤ
  timeout : ℤ
deriving DecidableEq, Repr

/-- `ToNumber` of the concatenation string: a `Date`'s string form
starts with a weekday name, so the whole string is never a numeric
literal and always converts to `NaN`. -/
def ExpireStr.toNumber (_ : ExpireStr) : JsNum := .nan

/-- A cache entry `{value, expire, refresh}` (spec §3 CacheEntry).  The
`expire` field as the code actually produces it: `null`, or the
date-string concatenation (see `ExpireStr`). -/
structure CacheEntry (V : Type _) where
  value : V
  expire : Option ExpireStr
  refresh : ℤ
deriving DecidableEq, Repr

/-- The two-level cache `cache[id_hex][subkey] → CacheEntry`. -/
abbrev Cache (V : Type _) := List (String × List (String × CacheEntry V))

def cacheLookup {V : Type _} (cache : Cache V) (idkey subkey : String) :
    Option (CacheEntry V) :=
  match alookup cache idkey with
  | none => none
  | some entries => alookup entries subkey

/-- The expiration stamp computed by `_storeToCache`:
`expireTimeout ? now + expireTimeout : null`.  A `none` or zero timeout
is JS-falsy and yields `null`; a truthy timeout yields the
date-string/timeout concatenation, not a number. -/
def storedExpire (expireTimeout : Option ℤ) (now : ℤ) : Option ExpireStr :=
  match expireTimeout with
  | none => none
  | some t => if t == 0 then none else some ⟨now, t⟩

/-- The single-subkey (non-array) branch of `Dht.prototype._storeToCache`:
create the idkey map if missing, then
`cache[idkey][subkey] = {value, expire: expireTimeout ? now + expireTimeout : null, refresh: now}`. -/
def storeToCacheSingle {V : Type _} (cache : Cache V) (idkey subkey : String)
    (v : V) (expireTimeout : Option ℤ) (now : ℤ) : Cache V :=
  let entries := (alookup cache idkey).getD []
  aset cache idkey (aset entries subkey ⟨v, storedExpire expireTimeout now, now⟩)

/-- The TTL scaling factor of `_expireCache`:
`numNodes > bucketSize ? Math.exp(bucketSize / numNodes) : 1`. -/
def expireFactor (mexp : ℚ → ℚ) (bucketSize numNodes : Nat) : ℚ :=
  if numNodes > bucketSize then mexp ((bucketSize : ℚ) / (numNodes : ℚ)) else 1

/-- Whether one entry survives the `_expireCache` pass.  `null` is
falsy, so `if(!expire) continue` skips it; the stored concatenation
string is non-empty, hence truthy, and the pass proceeds: when the
factor differs from 1 it computes
`(expire - expireTime) + (expire - expireTime) * factor`, and finally
tests `expire < now` — all through `ToNumber`, where the string gives
`NaN` (`now` converts to its numeric time value under the comparison's
number hint). -/
def entryKeep {V : Type _} (expireTimeMs : ℤ) (factor : ℚ) (now : ℤ)
    (e : CacheEntry V) : Bool :=
  match e.expire with
  | none => true
  | some ex =>
    let exN := ex.toNumber
    let scaled :=
      if factor != 1 then
        jsAdd (jsSub exN (.num (expireTimeMs : ℚ)))
              (jsMul (jsSub exN (.num (expireTimeMs : ℚ))) (.num factor))
      else exN
    if jsLt scaled (.num ((now : ℤ) : ℚ)) then false else true

/-- `Dht.prototype._expireCache`: for each idkey, compute the scaling
factor from `countClosestNodes`, then delete the expired subkey
entries. -/
def expireCache {V : Type _} (mexp : ℚ → ℚ) (t : RoutingTable) (bucketSize : Nat)
    (expireTimeMs : ℤ) (cache : Cache V) (now : ℤ) : Cache V :=
  cache.map (fun p =>
    let numNodes := rtCountClosestNodes t (idFromHex p.1)
    let factor := expireFactor mexp bucketSize numNodes
    (p.1, p.2.filter (fun q => entryKeep expireTimeMs factor now q.2)))

/-- Result of `_findFromCache`: `{value: undefined}`, a single entry, or
the all-subkeys view built by `cleanupValues`. -/
inductive FindResult (V : Type _) where
  | notFound
  | entry (e : CacheEntry V)
  | all (vals : List (String × V)) (expires : List (String × Option ExpireStr))
deriving DecidableEq, Repr

/-- `Dht.prototype._findFromCache`: run `_expireCache`, then resolve the
idkey map and subkey (a `none` subkey is the JS `undefined`/`null`
all-subkeys path through `cleanupValues`). -/
def findFromCache {V : Type _} (mexp : ℚ → ℚ) (t : RoutingTable) (bucketSize : Nat)
    (expireTimeMs : ℤ) (cache : Cache V) (now : ℤ) (idkey : String)
    (subkey : Option String) : Cache V × FindResult V :=
  let cache1 := expireCache mexp t bucketSize expireTimeMs cache now
  match alookup cache1 idkey with
  | none => (cache1, .notFound)
  | some entries =>
    if entries.length == 0 then (cache1, .notFound)
    else
      match subkey with
      | none => (cache1, .all (entries.map (fun q => (q.1, q.2.value)))
                              (entries.map (fun q => (q.1, q.2.expire))))
      | some sk =>
        match alookup entries sk with
        | none => (cache1, .notFound)
        | some e => (cache1, .entry e)

theorem alookup_map {α β : Type _} (F : String → α → β) (l : List (String × α))
    (k : String) :
    alookup (l.map (fun p => (p.1, F p.1 p.2))) k = (alookup l k).map (F k) := by
  induction l with
  | nil => rfl
  | cons q l ih =>
    simp only [List.map_cons, alookup]
    by_cases hk : (q.1 == k) = true
    · rw [if_pos hk, if_pos hk]
      have : q.1 = k := by simpa using hk
      rw [this]
      rfl
    · rw [if_neg hk, if_neg hk]
      exact ih

theorem alookup_filter_val {α : Type _} (P : α → Bool) (l : List (String × α))
    (k : String) (e : α) (h : alookup l k = some e) (hP : P e = true) :
    alookup (l.filter (fun q => P q.2)) k = some e := by
  induction l with
  | nil => simp [alookup] at h
  | cons q l ih =>
    simp only [alookup] at h
    by_cases hk : (q.1 == k) = true
    · rw [if_pos hk] at h
      have he : q.2 = e := by injection h
      simp only [List.filter]
      rw [show P q.2 = true from he ▸ hP]
      simp only [alookup]
      rw [if_pos hk, he]
    · rw [if_neg hk] at h
      simp only [List.filter]
      by_cases hq : P q.2 = true
      · rw [hq]
        simp only [alookup]
        rw [if_neg hk]
        exact ih h
      · rw [Bool.eq_false_iff.mpr hq]
        exact ih h

theorem alookup_nonempty {α : Type _} (l : List (String × α)) (k : String) (e : α)
    (h : alookup l k = some e) : l ≠ [] := by
  intro hc
  rw [hc] at h
  simp [alookup] at h


theorem expireCache_eq_map {V : Type _} (mexp : ℚ → ℚ) (t : RoutingTable)
    (bucketSize : Nat) (expireTimeMs : ℤ) (cache : Cache V) (now : ℤ) :
    expireCache mexp t bucketSize expireTimeMs cache now
      = cache.map (fun p => (p.1, p.2.filter (fun q =>
          entryKeep expireTimeMs
            (expireFactor mexp bucketSize (rtCountClosestNodes t (idFromHex p.1)))
            now q.2))) := rfl

theorem cacheLookup_of_alookup {V : Type _} (cache : Cache V)
    (idkey subkey : String) (entries : List (String × CacheEntry V))
    (hent : alookup cache idkey = some entries) :
    cacheLookup cache idkey subkey = alookup entries subkey := by
  unfold cacheLookup
  rw [hent]

theorem cacheLookup_of_alookup_none {V : Type _} (cache : Cache V)
    (idkey subkey : String) (hent : alookup cache idkey = none) :
    cacheLookup cache idkey subkey = none := by
  unfold cacheLookup
  rw [hent]

/-- An entry that the pass keeps is still found afterwards. -/
theorem cacheLookup_expireCache {V : Type _} (mexp : ℚ → ℚ) (t : RoutingTable)
    (bucketSize : Nat) (expireTimeMs : ℤ) (cache : Cache V) (now : ℤ)
    (idkey subkey : String) (e : CacheEntry V)
    (hlk : cacheLookup cache idkey subkey = some e)
    (hkeep : entryKeep expireTimeMs
        (expireFactor mexp bucketSize (rtCountClosestNodes t (idFromHex idkey)))
        now e = true) :
    cacheLookup (expireCache mexp t bucketSize expireTimeMs cache now) idkey subkey
      = some e := by
  rcases hent : alookup cache idkey with _ | entries
  · rw [cacheLookup_of_alookup_none cache idkey subkey hent] at hlk
    exact absurd hlk (by simp)
  · rw [cacheLookup_of_alookup cache idkey subkey entries hent] at hlk
    have hmap : alookup (expireCache mexp t bucketSize expireTimeMs cache now) idkey
        = some (entries.filter (fun q =>
            entryKeep expireTimeMs
              (expireFactor mexp bucketSize (rtCountClosestNodes t (idFromHex idkey)))
              now q.2)) := by
      rw [expireCache_eq_map, alookup_map
        (fun (k : String) (es : List (String × CacheEntry V)) =>
          List.filter (fun q =>
            entryKeep expireTimeMs
              (expireFactor mexp bucketSize (rtCountClosestNodes t (idFromHex k)))
              now q.2) es)]
      rw [hent]
      rfl
    rw [cacheLookup_of_alookup _ idkey subkey _ hmap]
    rw [alookup_filter_val _ entries subkey e hlk hkeep]

/-- Entries with a null `expire` survive any expiration pass untouched,
whatever the routing table, the clock and the `Math.exp` values. -/
theorem expireCache_keeps_null {V : Type _} (mexp : ℚ → ℚ) (t : RoutingTable)
    (bucketSize : Nat) (expireTimeMs : ℤ) (cache : Cache V) (now : ℤ)
    (idkey subkey : String) (e : CacheEntry V)
    (hlk : cacheLookup cache idkey subkey = some e) (hnull : e.expire = none) :
    cacheLookup (expireCache mexp t bucketSize expireTimeMs cache now) idkey subkey
      = some e := by
  refine cacheLookup_expireCache mexp t bucketSize expireTimeMs cache now
    idkey subkey e hlk ?_
  rcases e with ⟨v, ex, r⟩
  simp only at hnull
  subst hnull
  rfl

/-- No cache entry is ever deleted by the pass: a null `expire` is
skipped, and a stored concatenation string evaluates to `NaN`, whose
comparisons are all false — for every factor, clock and configuration. -/
theorem entryKeep_true {V : Type _} (expireTimeMs : ℤ) (factor : ℚ) (now : ℤ)
    (e : CacheEntry V) : entryKeep expireTimeMs factor now e = true := by
  rcases e with ⟨v, ex, r⟩
  rcases ex with _ | es
  · rfl
  · unfold entryKeep
    simp only
    by_cases hf : (factor != 1) = true
    · rw [if_pos hf]
      rfl
    · rw [if_neg hf]
      rfl

theorem cacheLookup_store {V : Type _} (cache : Cache V) (idkey sk : String)
    (v : V) (et : Option ℤ) (now : ℤ) :
    cacheLookup (storeToCacheSingle cache idkey sk v et now) idkey sk
      = some ⟨v, storedExpire et now, now⟩ := by
  unfold cacheLookup storeToCacheSingle
  rw [alookup_aset_self]
  simp only [Option.map_some]
  rw [alookup_aset_self]

/-- When the lookup after expiration hits a single-subkey entry,
`_findFromCache` returns it. -/
theorem findFromCache_entry {V : Type _} (mexp : ℚ → ℚ) (t : RoutingTable)
    (bucketSize : Nat) (expireTimeMs : ℤ) (cache : Cache V) (now : ℤ)
    (idkey sk : String) (e : CacheEntry V)
    (h : cacheLookup (expireCache mexp t bucketSize expireTimeMs cache now) idkey sk
          = some e) :
    (findFromCache mexp t bucketSize expireTimeMs cache now idkey (some sk)).2
      = .entry e := by
  unfold findFromCache
  rcases hlk : alookup (expireCache mexp t bucketSize expireTimeMs cache now) idkey
    with _ | entries
  · rw [cacheLookup_of_alookup_none _ idkey sk hlk] at h
    exact absurd h (by simp)
  · rw [cacheLookup_of_alookup _ idkey sk entries hlk] at h
    simp only [hlk]
    have hne : entries ≠ [] := alookup_nonempty entries sk e h
    rw [if_neg (by
      intro hc
      have : entries.length = 0 := by simpa using hc
      exact hne (List.length_eq_zero.mp this))]
    simp only [h]

/-- Reading back right after a single-subkey `_storeToCache`, at the
same instant, for ANY expire timeout: the freshly stored entry survives
the interleaved expiration pass (its expire is null or the `NaN`-valued
concatenation string, never deletable) and carries the stored value. -/
theorem storeToCache_findBack {V : Type _} (mexp : ℚ → ℚ) (t : RoutingTable)
    (bucketSize : Nat) (expireTimeMs : ℤ) (cache : Cache V) (idkey sk : String)
    (v : V) (et : Option ℤ) (now : ℤ) :
    (findFromCache mexp t bucketSize expireTimeMs
        (storeToCacheSingle cache idkey sk v et now) now idkey (some sk)).2
      = .entry ⟨v, storedExpire et now, now⟩ :=
  findFromCache_entry mexp t bucketSize expireTimeMs _ now idkey sk _
    (cacheLookup_expireCache mexp t bucketSize expireTimeMs _ now idkey sk _
      (cacheLookup_store cache idkey sk v et now)
      (entryKeep_true expireTimeMs _ now _))

/-!
## DHT node operations

The millisecond-variant DHT module: `peek`, `multiget`'s cache-or-network
decision, the `multiset` store pipeline, and `_findNodeOrValue`.
Asynchronous RPC completion is sequentialized: outgoing `findNode` calls
are an oracle answering with either an error or a contact list, and the
driver consumes one completion at a time (`fuel` bounds the recursion;
the paths exercised below complete before exhausting it).
-/

structure DhtOpts where
  bucketSize : Nat
  concurrency : Nat
  expireTimeMiliseconds : ℤ
deriving DecidableEq, Repr

structure DhtState where
  routes : RoutingTable
  cache : Cache String
  opts : DhtOpts
deriving DecidableEq, Repr

/-- `key instanceof Id ? key : Id.fromKey(key)`.  `Id.fromKey` hashes
with SHA-1, a host primitive, so it enters the model as the parameter
`fromKey`. -/
def resolveKey (fromKey : String → Id) : Sum Id String → Id
  | .inl id => id
  | .inr s => fromKey s

/-- The JS `subkey` argument as `multiget`/`peek` distinguish it:
`undefined`, `null`, or a string. -/
inductive SubkeyArg where
  | undef
  | nul
  | str (s : String)
deriving DecidableEq, Repr

/-- `peek`'s cache subkey: `subkey || keyid.toString()` (both `null` and
`undefined` — and the empty string — are falsy). -/
def subkeyForPeek (keyid : Id) (subkey : SubkeyArg) : String :=
  match subkey with
  | .str s => if s == "" then idToHex keyid else s
  | _ => idToHex keyid

/-- `Dht.prototype.peek`: a synchronous cache read (running the
expiration pass) returning `none` for the JS `null`. -/
def peek (mexp : ℚ → ℚ) (d : DhtState) (keyid : Id) (subkey : SubkeyArg) (now : ℤ) :
    DhtState × Option String :=
  let sk := subkeyForPeek keyid subkey
  let r := findFromCache mexp d.routes d.opts.bucketSize d.opts.expireTimeMiliseconds
    d.cache now (idToHex keyid) (some sk)
  let val : Option String :=
    match r.2 with
    | .notFound => none
    | .entry e => some e.value
    | .all _ _ => none
  ({ d with cache := r.1 }, val)

/-- Which of the two `multiget` continuations runs. -/
inductive GetPath where
  | fromCache (v : String)
  | network
deriving DecidableEq, Repr

/-- `Dht.prototype.multiget`: serve the peeked value directly when it is
truthy and `subkey !== undefined`; otherwise start
`_iterativeFindValue`. -/
def multigetPath (mexp : ℚ → ℚ) (fromKey : String → Id) (d : DhtState)
    (key : Sum Id String) (subkey : SubkeyArg) (now : ℤ) : DhtState × GetPath :=
  let keyid := resolveKey fromKey key
  let r := peek mexp d keyid subkey now
  match r.2 with
  | some v =>
    if v == "" then (r.1, .network)
    else
      match subkey with
      | .undef => (r.1, .network)
      | _ => (r.1, .fromCache v)
  | none => (r.1, .network)

/-- `Dht.prototype.getall(key) = multiget(key, null)`. -/
def getallPath (mexp : ℚ → ℚ) (fromKey : String → Id) (d : DhtState)
    (key : Sum Id String) (now : ℤ) : DhtState × GetPath :=
  multigetPath mexp fromKey d key .nul now

/-- The find-node lookup driver (`Lookup.proceed` / `_forContact`),
sequentialized to one in-flight probe: take the next unqueried contact;
on an RPC error remove it from the shortlist, on success merge the
response; when no unqueried contact remains, return the shortlist. -/
def lookupRunNode (oracle : Contact → Except Unit (List Contact)) :
    Nat → LookupList → List Contact
  | 0, list => llGetContacts list
  | fuel + 1, list =>
    let r := llNext list
    match r.2 with
    | none => llGetContacts r.1
    | some c =>
      match oracle c with
      | .error _ => lookupRunNode oracle fuel (llRemove r.1 c)
      | .ok contacts => lookupRunNode oracle fuel (llInsertMany r.1 contacts)

/-- `Dht.prototype.iterativeFindNode`: seed the shortlist with the
`concurrency` closest known contacts, mark the target's bucket
refreshed, run the lookup. -/
def iterativeFindNodePure (oracle : Contact → Except Unit (List Contact)) (fuel : Nat)
    (d : DhtState) (id : Id) (now : ℤ) : DhtState × List Contact :=
  let seeds := rtFind d.routes id (some d.opts.concurrency)
  let d2 := { d with routes := rtMarkRefreshed d.routes id now }
  (d2, lookupRunNode oracle fuel (llInsertMany (llInit id d.opts.bucketSize) seeds))

/-- One outgoing `store` RPC as `_storeTo` issues it. -/
structure StoreRpc where
  endpoint : String
  idkey : String
  subkey : String
  value : String
  expire : ℤ
deriving DecidableEq, Repr

/-- `Dht.prototype._storeTo` (single-subkey): a contact equal to the
local node stores into the cache; any other contact receives a `store`
RPC whose expire field defaults to `expireTimeMiliseconds` when the
timeout is falsy. -/
def storeToPure (d : DhtState) (idkey subkey value : String) (contact : Contact)
    (expireTimeout : Option ℤ) (now : ℤ) : DhtState × Option StoreRpc :=
  if idEqual contact.id d.routes.localId then
    ({ d with cache := storeToCacheSingle d.cache idkey subkey value expireTimeout now },
     none)
  else
    (d, some ⟨contact.endpoint, idkey, subkey, value,
      match expireTimeout with
      | none => d.opts.expireTimeMiliseconds
      | some q => if q == 0 then d.opts.expireTimeMiliseconds else q⟩)

/-- `Dht.prototype._storeToMany` over the contact list. -/
def storeToManyPure (d : DhtState) (idkey subkey value : String)
    (contacts : List Contact) (expireTimeout : Option ℤ) (now : ℤ) :
    DhtState × List StoreRpc :=
  contacts.foldl (fun acc c =>
    let r := storeToPure acc.1 idkey subkey value c expireTimeout now
    (r.1, acc.2 ++ r.2.toList)) (d, [])

/-- `Dht.prototype.multiset`: resolve the key, `iterativeFindNode` on
it, then store the value (with a null timeout) to every returned
contact. -/
def multisetPure (oracle : Contact → Except Unit (List Contact)) (fuel : Nat)
    (fromKey : String → Id) (d : DhtState) (key : Sum Id String)
    (subkey value : String) (now : ℤ) : DhtState × List StoreRpc :=
  let keyid := resolveKey fromKey key
  let r := iterativeFindNodePure oracle fuel d keyid now
  storeToManyPure r.1 (idToHex keyid) subkey value r.2 none now

/-!
### `_findNodeOrValue` of the millisecond-variant DHT module

Its mode guard reads a bare name `key`; JS name resolution throws a
`ReferenceError` when a read name is bound in no enclosing scope.
-/

/-- A JS value as far as the `key === undefined` guard observes it. -/
inductive JsVal where
  | undef
  | other
deriving DecidableEq, Repr

/-- Outcome of a `_findNodeOrValue` call. -/
inductive FnovOutcome where
  | throwInvalidCallback
  | throwReferenceError (name : String)
  | callFindNode
  | callFindValue
deriving DecidableEq, Repr

/-- The names bound in the scopes enclosing the body of
`Dht.prototype._findNodeOrValue` in the millisecond-variant module: its
parameters `(contact, targetId, idkey, subkey, cb)` and `this`, the
module-level declarations, and the Node module-wrapper parameters.
Neither these nor any global used by this module declares `key`. -/
def fnovScope : List String :=
  ["contact", "targetId", "idkey", "subkey", "cb", "this",
   "asyncMap", "Id", "RoutingTable", "Lookup", "Contact", "RPC_FUNCTIONS",
   "checkInterface", "defaultOptions", "Dht",
   "module", "exports", "require", "__filename", "__dirname"]

/-- `Dht.prototype._findNodeOrValue` with JS name resolution explicit:
the environment gives the values of the in-scope names, and reading a
name it does not bind throws `ReferenceError` before anything else
happens; otherwise `key === undefined` selects `_findNode` or
`_findValue` (each of which then issues its RPC). -/
def findNodeOrValue (env : String → Option JsVal) (cbIsFunction : Bool) : FnovOutcome :=
  if !cbIsFunction then .throwInvalidCallback
  else
    match env "key" with
    | none => .throwReferenceError "key"
    | some v => if v == .undef then .callFindNode else .callFindValue

/-!
## Supporting lemmas for the claims
-/

theorem rtCountClosestNodesGo_eq (id refId : Id) : ∀ n : RNode,
    rtCountClosestNodesGo id refId n
      = ((contactsOf n).filter (fun c => compareDistance refId id c.id > 0)).length := by
  intro n
  induction n with
  | leaf b => rfl
  | branch l r ihl ihr =>
    simp only [rtCountClosestNodesGo, contactsOf, List.filter_append,
      List.length_append, ihl, ihr]

theorem rtCountClosestNodes_eq (t : RoutingTable) (X : Id) :
    rtCountClosestNodes t X
      = ((contactsOf t.root).filter
          (fun c => compareDistance t.localId X c.id > 0)).length :=
  rtCountClosestNodesGo_eq X t.localId t.root

/-- Numeric characterization: `countClosestNodes X` counts the stored
contacts strictly FARTHER from the local id than `X` is. -/
theorem rtCountClosestNodes_farther (t : RoutingTable) (X : Id)
    (hL : IdOk t.localId) (hX : IdOk X)
    (hall : ∀ c ∈ contactsOf t.root, IdOk c.id) :
    rtCountClosestNodes t X
      = ((contactsOf t.root).filter
          (fun c => distNat t.localId X < distNat t.localId c.id)).length := by
  rw [rtCountClosestNodes_eq]
  congr 1
  refine List.filter_congr ?_
  intro c hc
  have := compareDistance_pos_iff t.localId X c.id hL hX (hall c hc)
  exact decide_eq_decide.mpr this

/-- When the walk reaches a full bucket without the contact, off the
local-id prefix (or at maximal depth), the store walk leaves the tree
unchanged and reports the bucket's oldest contact without registering
anything. -/
theorem storeInNode_full (lid : Id) (ks : Nat) (c : Contact) :
    ∀ (n : RNode) (d0 : Nat) (allow0 : Bool) (pfx : String)
      (b : Bucket) (allow : Bool) (d : Nat),
    findBucketInfo lid n c.id d0 allow0 = (b, allow, d) →
    (∀ x ∈ b.store, idEqual x.id c.id = false) →
    b.store.length = b.capacity →
    (allow = false ∨ d + 1 = BIT_SIZE) →
    storeInNode lid ks c n d0 allow0 pfx = (n, b.store.head?, false) := by
  intro n
  induction n with
  | leaf b0 =>
    intro d0 allow0 pfx b allow d hres hnotin hfull hstop
    have hb : b0 = b ∧ (allow0 && (idAt c.id d0 == idAt lid d0)) = allow ∧ d0 = d := by
      simp only [findBucketInfo] at hres
      exact ⟨congrArg (fun p => p.1) hres,
             congrArg (fun p => p.2.1) hres,
             congrArg (fun p => p.2.2) hres⟩
    rcases hb with ⟨hb1, hb2, hb3⟩
    subst hb1
    have hrem : removeById b0.store c.id = (b0.store, none) :=
      removeById_of_all_not b0.store c.id hnotin
    have hsres : bucketStore b0 c = (b0, false) := by
      unfold bucketStore
      rw [hrem]
      simp only
      rw [if_pos (by simpa using hfull)]
    simp only [storeInNode]
    rw [hsres]
    simp only [Bool.false_eq_true, if_false]
    rw [if_pos (by
      rcases hstop with h | h
      · rw [hb2, h]
        simp
      · rw [← hb3] at h
        simp [h, BIT_SIZE])]
    rw [show bucketOldest b0 = b0.store.head? from rfl]
  | branch l r ihl ihr =>
    intro d0 allow0 pfx b allow d hres hnotin hfull hstop
    simp only [findBucketInfo] at hres
    simp only [storeInNode]
    by_cases hbit : idAt c.id d0 = true
    · rw [if_pos hbit] at hres
      rw [if_pos hbit]
      rw [ihr (d0 + 1) (allow0 && (idAt c.id d0 == idAt lid d0)) (pfx ++ "1")
        b allow d hres hnotin hfull hstop]
    · rw [if_neg hbit] at hres
      rw [if_neg hbit]
      rw [ihl (d0 + 1) (allow0 && (idAt c.id d0 == idAt lid d0)) (pfx ++ "0")
        b allow d hres hnotin hfull hstop]

/-- Lift of `storeInNode_full` to `RoutingTable.store`. -/
theorem rtStore_full_unsplittable (t : RoutingTable) (c : Contact)
    (b : Bucket) (allow : Bool) (d : Nat)
    (hne : idEqual c.id t.localId = false)
    (hres : findBucketInfo t.localId t.root c.id 0 true = (b, allow, d))
    (hnotin : ∀ x ∈ b.store, idEqual x.id c.id = false)
    (hfull : b.store.length = b.capacity)
    (hcap : 0 < b.capacity)
    (hstop : allow = false ∨ d + 1 = BIT_SIZE) :
    rtStore t c = (t, b.store.head?) ∧ b.store.head?.isSome = true := by
  have hwalk := storeInNode_full t.localId t.bucketSize c t.root 0 true ""
    b allow d hres hnotin hfull hstop
  constructor
  · unfold rtStore
    rw [if_neg (by rw [hne]; simp)]
    rw [hwalk]
    rfl
  · have hne2 : b.store ≠ [] := by
      intro hcon
      rw [hcon] at hfull
      simp at hfull
      omega
    cases hcase : b.store with
    | nil => exact absurd hcase hne2
    | cons y ys => simp

/-!
## Concrete ids for witnesses and counterexamples
-/

def idZeros : Id := List.replicate 20 0

/-- 19 zero bytes followed by `b`: a small id near zero. -/
def idLow (b : Nat) : Id := List.replicate 19 0 ++ [b]

/-- `b` followed by 19 zero bytes: an id with a high leading byte. -/
def idHigh (b : Nat) : Id := b :: List.replicate 19 0

theorem lookupRunNode_empty (oracle : Contact → Except Unit (List Contact))
    (fuel : Nat) (target : Id) (size : Nat) :
    lookupRunNode oracle fuel (llInit target size) = [] := by
  cases fuel <;> rfl

/-- On a freshly initialized table (no contacts), `multiset` finds no
contact to store to: the whole pipeline only marks the target bucket
refreshed, issues no store RPC, and leaves the cache untouched. -/
theorem multisetPure_empty_table (oracle : Contact → Except Unit (List Contact))
    (fuel : Nat) (fromKey : String → Id) (L : Id) (k α : Nat) (E now : ℤ)
    (key : Sum Id String) (subkey value : String) :
    multisetPure oracle fuel fromKey ⟨RoutingTable.init L k, [], ⟨k, α, E⟩⟩
        key subkey value now
      = (⟨rtMarkRefreshed (RoutingTable.init L k) (resolveKey fromKey key) now,
          [], ⟨k, α, E⟩⟩, []) := by
  cases fuel <;> rfl

/-!
## The claims
-/

/-- C1: the spec's single-node publish/peek scenario, evaluated on the
code.  A node built with an empty seed list has an empty routing table,
so `set("hello", "world", cb)` runs `iterativeFindNode` over zero
seeds, gets zero contacts back, and `_storeToMany` stores to nobody.
When `cb` fires, no store RPC was issued, the cache is still empty (in
particular there is no entry at `[hex(fromKey "hello")][...]`), and
`peek("hello")` returns null — not `"world"` as the scenario claims. -/
theorem c1_single_node_set_leaves_cache_empty
    (oracle : Contact → Except Unit (List Contact)) (fuel : Nat)
    (fromKey : String → Id) (L : Id) (k α : Nat) (E now now2 : ℤ) (mexp : ℚ → ℚ) :
    (multisetPure oracle fuel fromKey ⟨RoutingTable.init L k, [], ⟨k, α, E⟩⟩
        (.inr "hello") "hello" "world" now).2 = [] ∧
    (multisetPure oracle fuel fromKey ⟨RoutingTable.init L k, [], ⟨k, α, E⟩⟩
        (.inr "hello") "hello" "world" now).1.cache = [] ∧
    (peek mexp
        (multisetPure oracle fuel fromKey ⟨RoutingTable.init L k, [], ⟨k, α, E⟩⟩
          (.inr "hello") "hello" "world" now).1
        (fromKey "hello") .undef now2).2 = none := by
  rw [multisetPure_empty_table oracle fuel fromKey L k α E now (.inr "hello")
    "hello" "world"]
  exact ⟨rfl, rfl, rfl⟩

/-- C2: `getall` does NOT always consult the network.  `getall(key)` is
`multiget(key, null)`; the guard is `val && subkey !== undefined`, and
`null !== undefined` holds, so a truthy peeked value is served straight
from the cache.  Concretely: with an entry stored under
`cache[hex(id)][hex(id)]`, `getall` on that id returns the cached value
and never starts `_iterativeFindValue` — despite the comment "Force
getting the key from authoritative source on getall". -/
theorem c2_getall_served_from_cache :
    (getallPath (fun _ => 1) (fun _ => idZeros)
        ⟨RoutingTable.init idZeros 20,
         [(idToHex (idLow 1), [(idToHex (idLow 1),
            ⟨"world", none, 0⟩)])],
         ⟨20, 3, 86410000⟩⟩
        (.inl (idLow 1)) 0).2 = .fromCache "world" := by
  rfl

/-- C3: every `_findNodeOrValue` call of the millisecond-variant DHT
module that passes the callback check throws `ReferenceError` on the
guard `key === undefined` — the name `key` is bound in no enclosing
scope — so neither `_findNode` nor `_findValue` is ever reached through
this helper and no RPC is issued. -/
theorem c3_findNodeOrValue_reference_error (env : String → Option JsVal)
    (h : ∀ x, (env x).isSome = true ↔ x ∈ fnovScope) :
    findNodeOrValue env true = .throwReferenceError "key" ∧
    findNodeOrValue env true ≠ .callFindNode ∧
    findNodeOrValue env true ≠ .callFindValue := by
  have hmem : "key" ∉ fnovScope := by decide
  have hk : env "key" = none := by
    cases henv : env "key" with
    | none => rfl
    | some v =>
      exfalso
      exact hmem ((h "key").mp (by rw [henv]; rfl))
  have hout : findNodeOrValue env true = .throwReferenceError "key" := by
    unfold findNodeOrValue
    rw [hk]
    rfl
  exact ⟨hout, by rw [hout]; intro hc; exact FnovOutcome.noConfusion hc,
         by rw [hout]; intro hc; exact FnovOutcome.noConfusion hc⟩

theorem c3_witness :
    findNodeOrValue (fun x => if x ∈ fnovScope then some JsVal.other else none) true
      = .throwReferenceError "key" :=
  (c3_findNodeOrValue_reference_error
    (fun x => if x ∈ fnovScope then some JsVal.other else none)
    (by
      intro x
      by_cases h : x ∈ fnovScope
      · simp [h]
      · simp [h])).1

/-- C4 counterexample: with local id zero, one stored contact whose id
has distance 2, and query id X at distance 1, `countClosestNodes X`
returns 1 although zero stored contacts are closer to the local id than
X is: the count is not "the count of locally known contacts whose XOR
distance to L is smaller than the XOR distance from L to X". -/
theorem c4_counterexample :
    rtCountClosestNodes
        ((rtStore (RoutingTable.init idZeros 20) ⟨idLow 2, "e"⟩).1) (idLow 1) = 1 ∧
    ((contactsOf ((rtStore (RoutingTable.init idZeros 20) ⟨idLow 2, "e"⟩).1).root).filter
        (fun c => distNat idZeros c.id < distNat idZeros (idLow 1))).length = 0 := by
  constructor
  · rfl
  · rfl

/-- C4 (amended): `countClosestNodes X` returns exactly the number of
stored contacts `c` with `compare_distance(L, X, c.id) > 0`, and this
number equals the count of locally known contacts whose XOR distance to
`L` is GREATER than the XOR distance from `L` to `X` (i.e. contacts
farther from the local id than `X` is, not closer). -/
theorem c4_count_closest_amended (t : RoutingTable) (X : Id)
    (hL : IdOk t.localId) (hX : IdOk X)
    (hall : ∀ c ∈ contactsOf t.root, IdOk c.id) :
    rtCountClosestNodes t X
      = ((contactsOf t.root).filter
          (fun c => compareDistance t.localId X c.id > 0)).length ∧
    rtCountClosestNodes t X
      = ((contactsOf t.root).filter
          (fun c => distNat t.localId X < distNat t.localId c.id)).length :=
  ⟨rtCountClosestNodes_eq t X, rtCountClosestNodes_farther t X hL hX hall⟩

theorem c4_witness :
    rtCountClosestNodes
        ((rtStore (RoutingTable.init idZeros 20) ⟨idLow 2, "e"⟩).1) (idLow 1)
      = ((contactsOf ((rtStore (RoutingTable.init idZeros 20) ⟨idLow 2, "e"⟩).1).root).filter
          (fun c => distNat idZeros (idLow 1) < distNat idZeros c.id)).length :=
  (c4_count_closest_amended
    ((rtStore (RoutingTable.init idZeros 20) ⟨idLow 2, "e"⟩).1) (idLow 1)
    (by decide) (by decide) (by decide)).2

/-- C5 counterexample: the rebinding scenario fails as universally
stated.  Capacity-1 table, local id zero; store `(X = 0x80…, E)`, then
store `(Y = 0x81…, E)` with `X ≠ Y`.  `Y`'s bucket is full and off the
local-id prefix, so the second store returns an eviction candidate
instead: `X` is still in the table and `E` still maps to `X`, not `Y`. -/
theorem c5_counterexample :
    (rtStore ((rtStore (RoutingTable.init idZeros 1) ⟨idHigh 128, "E"⟩).1)
        ⟨idHigh 129, "E"⟩).1
      = (rtStore (RoutingTable.init idZeros 1) ⟨idHigh 128, "E"⟩).1 ∧
    alookup (rtStore ((rtStore (RoutingTable.init idZeros 1) ⟨idHigh 128, "E"⟩).1)
        ⟨idHigh 129, "E"⟩).1.endpoints "E" = some (idHigh 128) ∧
    (⟨idHigh 128, "E"⟩ : Contact) ∈
      contactsOf (rtStore ((rtStore (RoutingTable.init idZeros 1) ⟨idHigh 128, "E"⟩).1)
        ⟨idHigh 129, "E"⟩).1.root ∧
    idEqual (idHigh 128) (idHigh 129) = false := by
  refine ⟨rfl, rfl, ?_, rfl⟩
  decide

/-- C5 (amended): (i) after any sequence of `store` and `remove`
operations the endpoint registry binds each serialized endpoint to at
most one id (its keys stay unique); (ii) storing `(Y, E)` after
`(X, E)` with `X ≠ Y` removes `X` from the table and registers `E → Y`
PROVIDED the second store is accepted — `Y` is not the local id and
`store` returns null rather than an eviction candidate (the
counterexample's full-bucket case) — in a well-formed table. -/
theorem c5_endpoint_rebinding_amended :
    (∀ t, Reachable t →
      keysNoDup t.endpoints = true ∧ rtWF t = true ∧ capsEq t = true ∧
        0 < t.bucketSize) ∧
    (∀ (t : RoutingTable) (Y : Id) (E : String) (X : Id),
      rtWF t = true → capsEq t = true → 0 < t.bucketSize →
      alookup t.endpoints E = some X →
      idEqual X Y = false →
      idEqual Y t.localId = false →
      (rtStore t ⟨Y, E⟩).2 = none →
      (∀ x ∈ contactsOf (rtStore t ⟨Y, E⟩).1.root, idEqual x.id X = false) ∧
      alookup (rtStore t ⟨Y, E⟩).1.endpoints E = some Y) := by
  constructor
  · intro t h
    have := reachable_inv t h
    exact ⟨this.2.1, this.1, this.2.2.1, this.2.2.2⟩
  · intro t Y E X h1 h2 h3 h4 h5 h6 h7
    exact rtStore_rebind t Y E X h1 h2 h3 h4 h5 h6 h7

theorem c5_witness :
    keysNoDup ((rtStore (RoutingTable.init idZeros 2) ⟨idHigh 128, "E"⟩).1).endpoints
      = true ∧
    (∀ x ∈ contactsOf (rtStore
        ((rtStore (RoutingTable.init idZeros 2) ⟨idHigh 128, "E"⟩).1)
        ⟨idHigh 129, "E"⟩).1.root, idEqual x.id (idHigh 128) = false) ∧
    alookup (rtStore ((rtStore (RoutingTable.init idZeros 2) ⟨idHigh 128, "E"⟩).1)
        ⟨idHigh 129, "E"⟩).1.endpoints "E" = some (idHigh 129) := by
  refine ⟨?_, ?_, ?_⟩
  · exact (c5_endpoint_rebinding_amended.1
      ((rtStore (RoutingTable.init idZeros 2) ⟨idHigh 128, "E"⟩).1)
      (Reachable.store _ _ (Reachable.init idZeros 2 (by decide)))).1
  · exact (c5_endpoint_rebinding_amended.2
      ((rtStore (RoutingTable.init idZeros 2) ⟨idHigh 128, "E"⟩).1)
      (idHigh 129) "E" (idHigh 128)
      (by decide) (by decide) (by decide) (by decide) (by decide) (by decide)
      (by decide)).1
  · exact (c5_endpoint_rebinding_amended.2
      ((rtStore (RoutingTable.init idZeros 2) ⟨idHigh 128, "E"⟩).1)
      (idHigh 129) "E" (idHigh 128)
      (by decide) (by decide) (by decide) (by decide) (by decide) (by decide)
      (by decide)).2

/-- C6: the table never stores a contact whose id equals the local id.
(i) `store` on such a contact returns null and changes neither the tree
nor the endpoint registry; (ii) across any sequence of `store` and
`remove` operations (`storeSome` and the DHT's `_discovered` are
compositions of these), no reachable state contains a contact with the
local id. -/
theorem c6_no_local_contact :
    (∀ (t : RoutingTable) (c : Contact),
      idEqual c.id t.localId = true → rtStore t c = (t, none)) ∧
    (∀ t : RoutingTable, Reachable t →
      ∀ x ∈ contactsOf t.root, idEqual x.id t.localId = false) := by
  constructor
  · intro t c h
    unfold rtStore
    rw [if_pos h]
  · exact reachable_no_local

theorem c6_witness :
    rtStore ((rtStore (RoutingTable.init (idLow 7) 20) ⟨idLow 9, "e"⟩).1)
        ⟨idLow 7, "e2"⟩
      = ((rtStore (RoutingTable.init (idLow 7) 20) ⟨idLow 9, "e"⟩).1, none) ∧
    (∀ x ∈ contactsOf ((rtStore (RoutingTable.init (idLow 7) 20) ⟨idLow 9, "e"⟩).1).root,
      idEqual x.id ((rtStore (RoutingTable.init (idLow 7) 20) ⟨idLow 9, "e"⟩).1).localId
        = false) := by
  constructor
  · exact c6_no_local_contact.1
      ((rtStore (RoutingTable.init (idLow 7) 20) ⟨idLow 9, "e"⟩).1)
      ⟨idLow 7, "e2"⟩ (by decide)
  · exact c6_no_local_contact.2
      ((rtStore (RoutingTable.init (idLow 7) 20) ⟨idLow 9, "e"⟩).1)
      (Reachable.store _ _ (Reachable.init (idLow 7) 20 (by decide)))

/-- C7: for a contact not already in its target bucket, when `store`
finds that bucket at capacity and the walk either left the local-id
prefix (`allowSplit` false) or would reach depth 160, it returns the
bucket's oldest contact, the contact is not inserted, and the table —
tree and endpoint registry alike — is returned unchanged. -/
theorem c7_full_bucket_returns_oldest (t : RoutingTable) (c : Contact)
    (b : Bucket) (allow : Bool) (d : Nat)
    (hne : idEqual c.id t.localId = false)
    (hres : findBucketInfo t.localId t.root c.id 0 true = (b, allow, d))
    (hnotin : ∀ x ∈ b.store, idEqual x.id c.id = false)
    (hfull : b.store.length = b.capacity)
    (hcap : 0 < b.capacity)
    (hstop : allow = false ∨ d + 1 = BIT_SIZE) :
    rtStore t c = (t, b.store.head?) ∧ b.store.head?.isSome = true :=
  rtStore_full_unsplittable t c b allow d hne hres hnotin hfull hcap hstop

theorem c7_witness :
    rtStore ((rtStore (RoutingTable.init idZeros 1) ⟨idHigh 128, "eX"⟩).1)
        ⟨idHigh 129, "eY"⟩
      = ((rtStore (RoutingTable.init idZeros 1) ⟨idHigh 128, "eX"⟩).1,
         some ⟨idHigh 128, "eX"⟩) := by
  have h := c7_full_bucket_returns_oldest
    ((rtStore (RoutingTable.init idZeros 1) ⟨idHigh 128, "eX"⟩).1)
    ⟨idHigh 129, "eY"⟩
    ⟨1, "", [⟨idHigh 128, "eX"⟩], none⟩ false 0
    (by decide) (by decide) (by decide) (by decide) (by decide) (Or.inl rfl)
  exact h.1

/-- C8: in all-subkey find-value mode, when a response from contact `c`
carries subkey `s` for which source `p` is already recorded, the lookup
replaces the recorded value and source exactly when `c` is strictly
closer to the target under XOR distance; at equal distance (and when
`c` is farther) the earlier entry survives. -/
theorem c8_tie_breaking {V T : Type _} (target : Id) (c p : Contact)
    (tmo : String → Option T) (kvs : List (String × V)) (st : MergeState V T)
    (s : String) (v : V)
    (hT : IdOk target) (hp : IdOk p.id) (hc : IdOk c.id)
    (hsrc : alookup st.srccontact s = some p)
    (hmem : (s, v) ∈ kvs)
    (hnd : (kvs.map Prod.fst).Nodup) :
    alookup (mergeValues target c kvs tmo st).srccontact s
      = (if distNat target c.id < distNat target p.id then some c else some p) ∧
    alookup (mergeValues target c kvs tmo st).value s
      = (if distNat target c.id < distNat target p.id then some v
         else alookup st.value s) := by
  have hiff := compareDistance_neg_iff target p.id c.id hT hp hc
  have h := mergeValues_recorded target c p tmo kvs st s v hsrc hmem hnd
  have e1 : (if compareDistance target p.id c.id < 0 then some c else some p)
      = (if distNat target c.id < distNat target p.id then some c else some p) :=
    if_congr hiff rfl rfl
  have e2 : (if compareDistance target p.id c.id < 0 then some v
             else alookup st.value s)
      = (if distNat target c.id < distNat target p.id then some v
         else alookup st.value s) :=
    if_congr hiff rfl rfl
  rw [e1, e2] at h
  exact h

theorem c8_witness :
    alookup (mergeValues idZeros (⟨idLow 1, "c"⟩ : Contact)
        [("s", "new")] (fun _ => (none : Option Nat))
        ⟨[("s", ⟨idLow 2, "p"⟩)], [("s", "old")], []⟩).srccontact "s"
      = some ⟨idLow 1, "c"⟩ ∧
    alookup (mergeValues idZeros (⟨idLow 1, "c"⟩ : Contact)
        [("s", "new")] (fun _ => (none : Option Nat))
        ⟨[("s", ⟨idLow 2, "p"⟩)], [("s", "old")], []⟩).value "s"
      = some "new" := by
  have h := c8_tie_breaking (V := String) (T := Nat) idZeros
    ⟨idLow 1, "c"⟩ ⟨idLow 2, "p"⟩ (fun _ => none) [("s", "new")]
    ⟨[("s", ⟨idLow 2, "p"⟩)], [("s", "old")], []⟩ "s" "new"
    (by decide) (by decide) (by decide) rfl (by decide) (by decide)
  exact ⟨h.1.trans (if_pos (by decide)), h.2.trans (if_pos (by decide))⟩

/-- C9: for every idkey, single (non-array) subkey, value `v` and every
expire timeout, reading the cache immediately after
`_storeToCache(idkey, subkey, v, timeout)` via
`_findFromCache(idkey, subkey)` at the same instant yields an entry
whose value equals `v`: the interleaved expiration pass does not remove
the freshly stored entry.  The entry's expire field is `null` for a
falsy timeout, and otherwise the `Date`-string concatenation, whose
`NaN`-valued comparisons make the pass keep it in every case —
whatever the routing table counts and whatever `Math.exp` returns. -/
theorem c9_store_then_find {V : Type _} (mexp : ℚ → ℚ) (t : RoutingTable)
    (bucketSize : Nat) (expireTimeMs : ℤ) (cache : Cache V) (idkey sk : String)
    (v : V) (et : Option ℤ) (now : ℤ) :
    (findFromCache mexp t bucketSize expireTimeMs
        (storeToCacheSingle cache idkey sk v et now) now idkey (some sk)).2
      = .entry ⟨v, storedExpire et now, now⟩ :=
  storeToCache_findBack mexp t bucketSize expireTimeMs cache idkey sk v et now

/-- C10: `_expireCache` never removes an entry whose `expire` field is
null, and leaves such entries unchanged, for every cache state, every
clock value, every routing table (however many closer nodes it counts)
and every value of the `Math.exp` primitive. -/
theorem c10_null_expire_never_removed {V : Type _} (mexp : ℚ → ℚ)
    (t : RoutingTable) (bucketSize : Nat) (expireTimeMs : ℤ) (cache : Cache V)
    (now : ℤ) (idkey subkey : String) (e : CacheEntry V)
    (hlk : cacheLookup cache idkey subkey = some e)
    (hnull : e.expire = none) :
    cacheLookup (expireCache mexp t bucketSize expireTimeMs cache now) idkey subkey
      = some e :=
  expireCache_keeps_null mexp t bucketSize expireTimeMs cache now idkey subkey e
    hlk hnull

theorem c10_witness :
    cacheLookup (expireCache (fun _ => 9) (RoutingTable.init idZeros 1) 1 86410000
        [("k", [("s", ⟨(7 : Nat), none, 0⟩)])] 123456) "k" "s"
      = some ⟨7, none, 0⟩ :=
  c10_null_expire_never_removed (fun _ => 9) (RoutingTable.init idZeros 1) 1
    86410000 [("k", [("s", ⟨7, none, 0⟩)])] 123456 "k" "s" ⟨7, none, 0⟩ rfl rfl
